import Mathlib

/-!
Verification development for the scanr repository (a grep-family search tool).

The repository has two C++ translation units:
  * `src/scanr.cpp`  - single-threaded driver with the context sequencer
    `process_stream`, the literal fast path `simple_matches` together with
    `is_word_boundary` and `find_insensitive`, and pattern preprocessing
    `compile_patterns`.
  * `src/main.cpp`   - concurrent driver with `compile_regex`,
    `process_file`, a work queue and atomic counters.

The definitions below are a shallow embedding of that code.  Strings are
modelled as `List Char` where byte positions matter (the inputs of the
claims are ASCII, where C++ byte indices and character indices agree).
Machine integers (`int`, `long long`, `size_t`) are modelled as `Nat`,
except the sentinel-carrying `last_printed_line`, which keeps the source
type shape as `Int` with `-1` meaning "nothing printed yet".

The regex engine itself is external to the design (spec section 1:
"pattern compilation is delegated to an existing regex capability"), so
`process_stream` is parameterised by the matcher it consumes, exactly the
`(is_match, match_positions)` pair the code obtains per line; the literal
non-regex matcher `simple_matches` is embedded in full.
-/

/-- Mirror of `struct Settings` in src/scanr.cpp (lines 13-27); fields keep
the source names and the source defaults.  The `files` list only feeds
output formatting and is omitted. -/
structure Settings where
  count_only : Bool := false
  hide_filenames : Bool := false
  ignore_case : Bool := false
  list_filenames : Bool := false
  show_line_numbers : Bool := false
  invert_match : Bool := false
  use_extended_regex : Bool := false
  match_whole_word : Bool := false
  only_matching : Bool := false
  lines_after : Nat := 0
  lines_before : Nat := 0
  patterns : List String := []

/-- C `isalnum` in the default locale on ASCII input: letters and digits.
Lean `Char.isAlphanum` checks exactly the ASCII ranges. -/
def isAlnumC (c : Char) : Bool := c.isAlphanum

/-- Mirror of `is_word_boundary` (src/scanr.cpp lines 365-380): empty line
counts as boundary; at position 0 a boundary holds iff the first character
is alphanumeric; at the end iff the previous character is alphanumeric;
in the middle iff exactly one of the two neighbouring characters is
alphanumeric. -/
def is_word_boundary (line : List Char) (pos : Nat) : Bool :=
  if line.isEmpty then true
  else
    let pos_is_alnum := decide (pos < line.length) && isAlnumC (line.getD pos ' ')
    if pos = 0 then pos_is_alnum
    else if pos = line.length then isAlnumC (line.getD (pos - 1) ' ')
    else isAlnumC (line.getD (pos - 1) ' ') != pos_is_alnum

/-- Occurrence test: `pat` occurs in `hay` starting at index `i`
(case-sensitive), the relation computed by `std::string::find`. -/
def occursAt (hay pat : List Char) (i : Nat) : Bool :=
  decide (i + pat.length ≤ hay.length) && ((hay.drop i).take pat.length == pat)

/-- Case-insensitive occurrence test used by `find_insensitive`
(tolower-compare, ASCII as in the C locale). -/
def occursAtCI (hay pat : List Char) (i : Nat) : Bool :=
  decide (i + pat.length ≤ hay.length) &&
    ((hay.drop i).take pat.length).map Char.toLower == pat.map Char.toLower

/-- Mirror of `std::string::find(pat, pos)`: the smallest index `i ≥ start`
at which `pat` occurs, `none` for `npos`.  An empty needle is found at
`start` whenever `start ≤ hay.length`, as in libstdc++. -/
def strFind (hay pat : List Char) (start : Nat) : Option Nat :=
  (List.range (hay.length + 1)).find? (fun i => decide (start ≤ i) && occursAt hay pat i)

/-- Mirror of `find_insensitive` (src/scanr.cpp lines 384-392): an empty
needle matches immediately at `pos`; otherwise `std::search` with a
tolower comparison, `none` for `npos`. -/
def find_insensitive (hay pat : List Char) (start : Nat) : Option Nat :=
  if pat.isEmpty then some start
  else (List.range (hay.length + 1)).find? (fun i => decide (start ≤ i) && occursAtCI hay pat i)

/-- The `while (current_pos < line.length())` loop of `simple_matches`
(src/scanr.cpp lines 406-447) for one non-empty pattern.  The loop
position strictly increases each iteration, so the extra fuel argument
bounds the number of iterations; `line.length + 1` fuel is always enough
and the fuel never runs out before the loop condition fails. -/
def searchPatternAux (ic ww om : Bool) (line pat : List Char) : Nat → Nat → Bool × List (Nat × Nat)
  | 0, _ => (false, [])
  | fuel + 1, currentPos =>
    if currentPos < line.length then
      match (if ic then find_insensitive line pat currentPos else strFind line pat currentPos) with
      | none => (false, [])
      | some matchStart =>
        let wordOk := !ww ||
          (is_word_boundary line matchStart && is_word_boundary line (matchStart + pat.length))
        if wordOk then
          if !om then (true, [(matchStart, pat.length)])
          else
            let rest := searchPatternAux ic ww om line pat fuel (matchStart + 1)
            (true, (matchStart, pat.length) :: rest.2)
        else searchPatternAux ic ww om line pat fuel (matchStart + 1)
    else (false, [])

/-- Search all occurrences of one pattern in a line, as the inner loop of
`simple_matches` does, starting at position 0. -/
def searchPattern (ic ww om : Bool) (line pat : List Char) : Bool × List (Nat × Nat) :=
  searchPatternAux ic ww om line pat (line.length + 1) 0

/-- Lexicographic order on `(start, length)` pairs; the order used by
`std::sort` on `std::pair<size_t, size_t>`. -/
def pairLeB (p q : Nat × Nat) : Bool :=
  decide (p.1 < q.1) || (decide (p.1 = q.1) && decide (p.2 ≤ q.2))

/-- Insertion step of the sort applied to match positions. -/
def insertPair (p : Nat × Nat) : List (Nat × Nat) → List (Nat × Nat)
  | [] => [p]
  | q :: qs => if pairLeB p q then p :: q :: qs else q :: insertPair p qs

/-- Sorting of match positions by start offset, the observable effect of
the `std::sort` call in `simple_matches` and `regex_matches` (the order is
total, so the sorted sequence is unique). -/
def sortPairs : List (Nat × Nat) → List (Nat × Nat)
  | [] => []
  | p :: ps => insertPair p (sortPairs ps)

/-- The `for (const auto& pattern : settings.patterns)` loop of
`simple_matches` (src/scanr.cpp lines 400-454): empty patterns are
skipped; in non `-o` mode the loop stops at the first pattern that
matched; in `-o` mode every pattern contributes all its occurrences. -/
def simpleGo (ic ww om : Bool) (line : List Char) :
    List String → Bool → List (Nat × Nat) → Bool × List (Nat × Nat)
  | [], found, acc => (found, acc)
  | p :: rest, found, acc =>
    if p.isEmpty then simpleGo ic ww om line rest found acc
    else
      let r := searchPattern ic ww om line p.toList
      let found2 := found || r.1
      let acc2 := acc ++ r.2
      if found2 && !om then (found2, acc2)
      else simpleGo ic ww om line rest found2 acc2

/-- Mirror of `simple_matches` (src/scanr.cpp lines 396-462): the simple
fixed-string matching path, returning the match verdict and the recorded
match positions (sorted when `-o` is active). -/
def simple_matches (s : Settings) (line : List Char) : Bool × List (Nat × Nat) :=
  let r := simpleGo s.ignore_case s.match_whole_word s.only_matching line s.patterns false []
  (r.1, if s.only_matching && !r.2.isEmpty then sortPairs r.2 else r.2)

/-- Start-of-pattern test of `compile_patterns` (src/scanr.cpp line 309):
length at least 2 with first two characters a backslash-b escape, or
length at least 1 with first character a caret. -/
def startsWithBoundary (p : List Char) : Bool :=
  (decide (2 ≤ p.length) && (p.take 2 == ['\\', 'b'])) ||
  (decide (1 ≤ p.length) && (p.headD ' ' == '^'))

/-- End-of-pattern test of `compile_patterns` (src/scanr.cpp line 310):
last two characters a backslash-b escape, or last character a dollar. -/
def endsWithBoundary (p : List Char) : Bool :=
  (decide (2 ≤ p.length) && (p.drop (p.length - 2) == ['\\', 'b'])) ||
  (decide (1 ≤ p.length) && (p.getLastD ' ' == '$'))

/-- Whole-word wrapping of one pattern inside `compile_patterns`
(src/scanr.cpp lines 304-318): both end tests are evaluated on the
original pattern, then the start and end are wrapped independently. -/
def wrapWholeWord (p : List Char) : List Char :=
  let sb := startsWithBoundary p
  let eb := endsWithBoundary p
  let p1 := if sb then p else '\\' :: 'b' :: p
  if eb then p1 else p1 ++ ['\\', 'b']

/-- Mirror of `compile_patterns` (src/scanr.cpp lines 291-323) at the
level of the processed pattern texts handed to the regex engine; the
engine itself is external. -/
def compile_patterns (s : Settings) : List (List Char) :=
  s.patterns.map (fun p => if s.match_whole_word then wrapWholeWord p.toList else p.toList)

/-- Mirror of the pattern preprocessing in `compile_regex`
(src/main.cpp lines 90-96): whole-word wraps unconditionally, then
whole-line wraps with anchors unconditionally. -/
def compile_regex (whole_word whole_line : Bool) (p : List Char) : List Char :=
  let p1 := if whole_word then '\\' :: 'b' :: (p ++ ['\\', 'b']) else p
  if whole_line then '^' :: (p1 ++ ['$']) else p1

/-- Clean restatement of the start test: the pattern literally starts
with a backslash-b escape or with a caret. -/
def startsProtected (p : List Char) : Bool :=
  List.isPrefixOf ['\\', 'b'] p || (p.head? == some '^')

/-- Clean restatement of the end test: the pattern literally ends with a
backslash-b escape or with a dollar. -/
def endsProtected (p : List Char) : Bool :=
  List.isSuffixOf ['\\', 'b'] p || (p.getLast? == some '$')

/-- The boundary rule exactly as worded by the specification (section 4.2):
a boundary holds at the string start, at the string end, or at a
transition between an alphanumeric and a non-alphanumeric character. -/
def specBoundary (line : List Char) (pos : Nat) : Bool :=
  decide (pos = 0) || decide (pos = line.length) ||
    ((decide (0 < pos) && isAlnumC (line.getD (pos - 1) ' ')) !=
     (decide (pos < line.length) && isAlnumC (line.getD pos ' ')))

/-- Acceptance of a located occurrence under the boundary rule as worded
by the specification: the rule must hold immediately before the match
start and immediately after the match end. -/
def specWordAccept (line pat : List Char) (i : Nat) : Bool :=
  specBoundary line i && specBoundary line (i + pat.length)

/-- One output record of `process_stream`: a `--` separator line, a
context line (prefixed with `-`), a whole matched line (prefixed with
`:`), one matched-portion record in `-o` mode (its text is the span
substring of the line), the filename record of `-l` mode, and the final
count record of `-c` mode. -/
inductive Event where
  | sep : Event
  | ctx (n : Nat) (text : String) : Event
  | matchLine (n : Nat) (text : String) : Event
  | oMatch (n : Nat) (span : Nat × Nat) : Event
  | fname : Event
  | countRec (cnt : Nat) : Event

/-- The source line number carried by an output record, if it is one of
the emitted line records (context, whole match line, matched portion). -/
def Event.lineNum? : Event → Option Nat
  | Event.ctx n _ => some n
  | Event.matchLine n _ => some n
  | Event.oMatch n _ => some n
  | _ => none

/-- Recogniser for separator records. -/
def Event.isSep : Event → Bool
  | Event.sep => true
  | _ => false

/-- Recogniser for whole-match-line records. -/
def Event.isMatchRec : Event → Bool
  | Event.matchLine _ _ => true
  | _ => false

/-- Line numbers of the emitted line records, in emission order;
separators, filename records and count records carry no line number and
are excluded. -/
def emittedNums (evs : List Event) : List Nat := evs.filterMap Event.lineNum?

/-- The separator-and-line-number skeleton of the output: `none` stands
for a separator record, `some n` for an emitted line with number `n`;
filename and count records are dropped. -/
def toks : List Event → List (Option Nat)
  | [] => []
  | Event.sep :: rest => none :: toks rest
  | e :: rest =>
    match e.lineNum? with
    | some n => some n :: toks rest
    | none => toks rest

/-- Scans the output skeleton: no separator may occur before the first
emitted line record. -/
def noSepBeforeFirstLine : List Event → Bool
  | [] => true
  | Event.sep :: _ => false
  | e :: rest => if (e.lineNum?).isSome then true else noSepBeforeFirstLine rest

/-- Checker for the separator discipline claimed by the specification,
running over the output skeleton with the number of the last emitted line
as state: a separator must sit between two emitted lines whose numbers
differ by more than 1, consecutive lines without a separator must have
numbers differing by at most 1, and a separator may not be first, last,
or doubled. -/
def sepExactFrom : Option Nat → List (Option Nat) → Bool
  | _, [] => true
  | last, none :: rest =>
    match last, rest with
    | some a, some b :: rest2 => decide (a + 1 < b) && sepExactFrom (some b) rest2
    | _, _ => false
  | last, some b :: rest =>
    (match last with
     | some a => decide (b ≤ a + 1)
     | none => true) && sepExactFrom (some b) rest

/-- View of the `long long last_printed_line` sentinel as an optional
line number. -/
def lpTok (lp : Int) : Option Nat := if lp < 0 then none else some lp.toNat

/-- Per-stream mutable state of `process_stream` (src/scanr.cpp lines
467-480), with the source initial values in `initState`. -/
structure StreamState where
  lastPrinted : Int
  beforeBuffer : List (Nat × String)
  afterToPrint : Nat
  pendingSep : Bool
  matchCount : Nat
  fnamePrinted : Bool

/-- Initial per-stream state: nothing printed (`-1`), empty before
buffer, no trailing context owed, no separator pending. -/
def initState : StreamState :=
  { lastPrinted := -1, beforeBuffer := [], afterToPrint := 0,
    pendingSep := false, matchCount := 0, fnamePrinted := false }

/-- The matcher interface `process_stream` consumes per line: the match
verdict and the recorded match positions.  `regex_matches` and
`simple_matches` both produce exactly this shape; the regex engine is
external to the design, so the sequencer is parameterised by it. -/
abbrev Matcher := String → Bool × List (Nat × Nat)

/-- The literal matching path as a `Matcher`. -/
def simpleMatcher (s : Settings) : Matcher := fun l => simple_matches s l.toList

/-- Drain of the before-context buffer (src/scanr.cpp lines 542-558):
every buffered line strictly beyond the last printed line is emitted as a
context line, printing the owed separator first, and the last printed
line number advances with each emission. -/
def drainBuffer : List (Nat × String) → Int → Bool → List Event × Int × Bool
  | [], lp, pending => ([], lp, pending)
  | e :: rest, lp, pending =>
    if (e.1 : Int) > lp then
      let d := drainBuffer rest (e.1 : Int) false
      ((if pending then [Event.sep] else []) ++ Event.ctx e.1 e.2 :: d.1, d.2)
    else drainBuffer rest lp pending

/-- Emission of the matching line itself (src/scanr.cpp lines 561-582):
guarded by its line number exceeding the last printed line; prints the
owed separator first; in `-o` mode one record per recorded span is
emitted instead of the whole line. -/
def emitMatch (s : Settings) (n : Nat) (line : String) (positions : List (Nat × Nat))
    (lp : Int) (pending : Bool) : List Event × Int × Bool :=
  if (n : Int) > lp then
    ((if pending then [Event.sep] else []) ++
       (if s.only_matching then positions.map (fun p => Event.oMatch n p)
        else [Event.matchLine n line]),
     (n : Int), false)
  else ([], lp, pending)

/-- Trailing-context handling for a non-eligible line (src/scanr.cpp
lines 589-608): while the countdown is positive the line is printed as
context unless already printed, and the countdown decrements either
way. -/
def stepNonEligible (s : Settings) (st : StreamState) (n : Nat) (line : String) :
    StreamState × List Event :=
  if 0 < st.afterToPrint then
    if (n : Int) > st.lastPrinted then
      ({ st with lastPrinted := (n : Int), pendingSep := false,
                 afterToPrint := st.afterToPrint - 1 },
       (if st.pendingSep then [Event.sep] else []) ++ [Event.ctx n line])
    else ({ st with afterToPrint := st.afterToPrint - 1 }, [])
  else (st, [])

/-- Sliding-window update of the before-context buffer (src/scanr.cpp
lines 612-618): push the current line, evict the oldest entry when the
capacity is exceeded. -/
def pushBuffer (s : Settings) (st : StreamState) (n : Nat) (line : String) : StreamState :=
  if 0 < s.lines_before then
    let b := st.beforeBuffer ++ [(n, line)]
    { st with beforeBuffer := if s.lines_before < b.length then b.drop 1 else b }
  else st

/-- The separator-owed computation for an eligible line in full output
mode (src/scanr.cpp lines 537-539): set the pending flag when context is
enabled, something was printed before, and a gap follows it. -/
def pendingAfterGap (s : Settings) (st : StreamState) (n : Nat) : Bool :=
  if (decide (0 < s.lines_before) || decide (0 < s.lines_after))
      && decide (st.lastPrinted ≠ -1)
      && decide ((n : Int) > st.lastPrinted + 1)
  then true else st.pendingSep

/-- The before-context drain step (src/scanr.cpp lines 542-558), which
only runs when before context is configured. -/
def drainPart (s : Settings) (st : StreamState) (n : Nat) : List Event × Int × Bool :=
  if 0 < s.lines_before
  then drainBuffer st.beforeBuffer st.lastPrinted (pendingAfterGap s st n)
  else ([], st.lastPrinted, pendingAfterGap s st n)

/-- Steps 1-3 of full output mode for an eligible line (src/scanr.cpp
lines 534-587 plus the buffer update of lines 612-618): compute the owed
separator, drain the before buffer, emit the match, arm the trailing
context countdown, push the line into the sliding buffer. -/
def fullStep (s : Settings) (m : Matcher) (st : StreamState) (n : Nat) (line : String) :
    StreamState × List Event :=
  let d := drainPart s st n
  let e := emitMatch s n line (m line).2 d.2.1 d.2.2
  (pushBuffer s
     { st with matchCount := st.matchCount + 1, lastPrinted := e.2.1,
               pendingSep := e.2.2, afterToPrint := s.lines_after } n line,
   d.1 ++ e.1)

/-- One iteration of the `while (std::getline(...))` loop of
`process_stream` (src/scanr.cpp lines 498-618) on line number `n` with
text `line`.  The third component is true when the `-l` early `return`
fired (src/scanr.cpp line 526); note that the `-c` `continue` and the
`-l` `return` both skip the buffer update. -/
def processLine (s : Settings) (m : Matcher) (st : StreamState) (n : Nat) (line : String) :
    StreamState × List Event × Bool :=
  let r := m line
  if r.1 != s.invert_match then
    if s.list_filenames then
      if !st.fnamePrinted then
        ({ st with matchCount := st.matchCount + 1, fnamePrinted := true }, [Event.fname], true)
      else ({ st with matchCount := st.matchCount + 1 }, [], true)
    else if s.count_only then ({ st with matchCount := st.matchCount + 1 }, [], false)
    else
      let f := fullStep s m st n line
      (f.1, f.2, false)
  else
    let t := stepNonEligible s st n line
    (pushBuffer s t.1 n line, t.2, false)

/-- The whole line loop of `process_stream`, threading the state and the
1-based line number; stops early when the `-l` return fired. -/
def processLinesAux (s : Settings) (m : Matcher) :
    StreamState → Nat → List String → StreamState × List Event × Bool
  | st, _, [] => (st, [], false)
  | st, n, line :: rest =>
    let r := processLine s m st (n + 1) line
    if r.2.2 then (r.1, r.2.1, true)
    else
      let r2 := processLinesAux s m r.1 (n + 1) rest
      (r2.1, r.2.1 ++ r2.2.1, r2.2.2)

/-- Mirror of `process_stream` (src/scanr.cpp lines 466-630) returning
the final state and the emitted output records: after the loop, count
mode emits the final count record unless the `-l` return fired. -/
def processStreamFull (s : Settings) (m : Matcher) (lines : List String) :
    StreamState × List Event :=
  let r := processLinesAux s m initState 0 lines
  if r.2.2 then (r.1, r.2.1)
  else (r.1, r.2.1 ++ (if s.count_only then [Event.countRec r.1.matchCount] else []))

/-- The output records emitted by one stream. -/
def process_stream (s : Settings) (m : Matcher) (lines : List String) : List Event :=
  (processStreamFull s m lines).2

/-- One resolved input file of a run: its path and its line contents,
`none` when the file cannot be opened. -/
structure FileEntry where
  name : String
  contents : Option (List String)

/-- Driver-level trace records: a call to pattern compilation, a stream
skipped because its per-stream compilation failed, a file that failed to
open, a file processed by a worker, and an output record. -/
inductive RunEv where
  | compileCall : RunEv
  | streamSkipped (name : String) : RunEv
  | openFailed (name : String) : RunEv
  | fileProcessed (name : String) : RunEv
  | out (e : Event) : RunEv

/-- Recogniser for compilation calls in a run trace. -/
def RunEv.isCompileCall : RunEv → Bool
  | RunEv.compileCall => true
  | _ => false

/-- Mirror of the per-eligible-line counting of `process_file`
(src/main.cpp lines 121-128): a line counts when the match verdict
differs from the invert flag; an unopenable file contributes nothing. -/
def process_file_matches (m : String → Bool) (invert : Bool) (f : FileEntry) : Nat :=
  match f.contents with
  | none => 0
  | some ls => ls.countP (fun l => m l != invert)

/-- The final value of the atomic counter `total_matches` of src/main.cpp:
every worker adds its per-file eligible count with atomic increments, so
after the join the total is the sum over the queue (spec section 8: the
aggregate is order-independent). -/
def totalMatchesC (m : String → Bool) (invert : Bool) (queue : List FileEntry) : Nat :=
  (queue.map (process_file_matches m invert)).sum

/-- Mirror of `main` in src/main.cpp (lines 300-337) after argument
parsing, as exit code plus trace: `compile_regex` runs once and exits the
process on failure before any file is collected; an empty queue exits
with failure; otherwise the exit code is success exactly when the total
match counter is positive.  `compiles` abstracts whether the single
`std::regex` construction succeeds. -/
def concurrent_main (compiles : Bool) (m : String → Bool) (invert : Bool)
    (queue : List FileEntry) : Nat × List RunEv :=
  if !compiles then (1, [RunEv.compileCall])
  else if queue.isEmpty then (1, [RunEv.compileCall])
  else
    ((if 0 < totalMatchesC m invert queue then 0 else 1),
     RunEv.compileCall :: queue.map (fun f =>
       match f.contents with
       | none => RunEv.openFailed f.name
       | some _ => RunEv.fileProcessed f.name))

/-- The flag normalisation of `main` in src/scanr.cpp (lines 57-59):
whole-word, ignore-case and only-matching force the regex engine. -/
def norm_settings (s : Settings) : Settings :=
  if s.match_whole_word || s.ignore_case || s.only_matching then
    { s with use_extended_regex := true }
  else s

/-- One stream as processed by `process_stream`, including its own
re-compilation of the patterns (src/scanr.cpp lines 482-495): in regex
mode the stream first calls `compile_patterns` again and skips the whole
stream when compilation fails.  Compilation of the same settings is
deterministic, so the same `compiles` value governs every call. -/
def stream_trace (s : Settings) (m : Matcher) (compiles : Bool) (name : String)
    (lines : List String) : List RunEv :=
  if s.use_extended_regex then
    if compiles then RunEv.compileCall :: (process_stream s m lines).map RunEv.out
    else [RunEv.compileCall, RunEv.streamSkipped name]
  else (process_stream s m lines).map RunEv.out

/-- Exit code and trace of one run of the src/scanr.cpp driver. -/
structure ScanrRun where
  exitCode : Nat
  trace : List RunEv

/-- Mirror of `main` in src/scanr.cpp (lines 41-102) for a run whose
argument parsing succeeded: missing patterns exit 1; in regex mode the
patterns are compiled once up front and a failure exits 1 before any file
is opened; then standard input or each file in turn is processed (a file
that fails to open is reported and skipped), and the driver returns 0. -/
def scanr_main (s0 : Settings) (m : Matcher) (compiles : Bool)
    (stdinLines : List String) (files : List FileEntry) : ScanrRun :=
  if s0.patterns.isEmpty then { exitCode := 1, trace := [] }
  else
    let s := norm_settings s0
    if s.use_extended_regex && !compiles then
      { exitCode := 1, trace := [RunEv.compileCall] }
    else
      let headEvs := if s.use_extended_regex then [RunEv.compileCall] else []
      if files.isEmpty then
        { exitCode := 0,
          trace := headEvs ++ stream_trace s m compiles "(standard input)" stdinLines }
      else
        { exitCode := 0,
          trace := headEvs ++ (files.map (fun f =>
            match f.contents with
            | none => [RunEv.openFailed f.name]
            | some ls => stream_trace s m compiles f.name ls)).flatten }

/-- Eligibility of a line for output and counting: match verdict XOR the
invert flag (src/scanr.cpp line 511). -/
def eligB (s : Settings) (m : Matcher) : String → Bool :=
  fun l => (m l).1 != s.invert_match

/-- Sequencer invariant carried across lines (`n` = number of lines
consumed so far): no separator pending at a line boundary, the last
printed line number is at most `n` and at least the `-1` sentinel, and
the before buffer holds strictly increasing line numbers bounded by `n`. -/
def SeqInv (st : StreamState) (n : Nat) : Prop :=
  st.pendingSep = false ∧
  st.lastPrinted ≤ (n : Int) ∧
  (-1 : Int) ≤ st.lastPrinted ∧
  st.beforeBuffer.Pairwise (fun a b => a.1 < b.1) ∧
  (∀ e ∈ st.beforeBuffer, e.1 ≤ n)

/-- Variant invariant for runs without before context: additionally, an
owed trailing context forces the last printed line to be the current one,
and only full-output mode can owe trailing context. -/
def SeqInv2 (s : Settings) (st : StreamState) (n : Nat) : Prop :=
  st.pendingSep = false ∧
  st.lastPrinted ≤ (n : Int) ∧
  (-1 : Int) ≤ st.lastPrinted ∧
  (0 < st.afterToPrint →
    st.lastPrinted = (n : Int) ∧ s.count_only = false ∧ s.list_filenames = false)

theorem emittedNums_append (l₁ l₂ : List Event) :
    emittedNums (l₁ ++ l₂) = emittedNums l₁ ++ emittedNums l₂ := by
  simp [emittedNums]

theorem toks_append (l₁ l₂ : List Event) : toks (l₁ ++ l₂) = toks l₁ ++ toks l₂ := by
  induction l₁ with
  | nil => simp [toks]
  | cons e rest ih => cases e <;> simp [toks, ih, Event.lineNum?]

theorem noSep_of_no_sep {evs : List Event} (h : ∀ e ∈ evs, e.isSep = false) :
    noSepBeforeFirstLine evs = true := by
  induction evs with
  | nil => rfl
  | cons e rest ih =>
    cases e with
    | sep => exact absurd (h Event.sep (List.mem_cons_self _ _)) (by simp [Event.isSep])
    | ctx n t => simp [noSepBeforeFirstLine, Event.lineNum?]
    | matchLine n t => simp [noSepBeforeFirstLine, Event.lineNum?]
    | oMatch n sp => simp [noSepBeforeFirstLine, Event.lineNum?]
    | fname =>
      simp only [noSepBeforeFirstLine, Event.lineNum?, Option.isSome_none, Bool.false_eq_true,
        if_false]
      exact ih (fun e he => h e (List.mem_cons_of_mem _ he))
    | countRec c =>
      simp only [noSepBeforeFirstLine, Event.lineNum?, Option.isSome_none, Bool.false_eq_true,
        if_false]
      exact ih (fun e he => h e (List.mem_cons_of_mem _ he))

theorem noSep_append {l₁ l₂ : List Event} (h₁ : noSepBeforeFirstLine l₁ = true)
    (h₂ : emittedNums l₁ = [] → noSepBeforeFirstLine l₂ = true) :
    noSepBeforeFirstLine (l₁ ++ l₂) = true := by
  induction l₁ with
  | nil => exact h₂ rfl
  | cons e rest ih =>
    cases e with
    | sep => simp [noSepBeforeFirstLine] at h₁
    | ctx n t => simp [noSepBeforeFirstLine, Event.lineNum?]
    | matchLine n t => simp [noSepBeforeFirstLine, Event.lineNum?]
    | oMatch n sp => simp [noSepBeforeFirstLine, Event.lineNum?]
    | fname =>
      simp only [noSepBeforeFirstLine, Event.lineNum?, Option.isSome_none, Bool.false_eq_true,
        if_false, List.cons_append] at h₁ ⊢
      exact ih h₁ (fun h => h₂ (by simpa [emittedNums, Event.lineNum?] using h))
    | countRec c =>
      simp only [noSepBeforeFirstLine, Event.lineNum?, Option.isSome_none, Bool.false_eq_true,
        if_false, List.cons_append] at h₁ ⊢
      exact ih h₁ (fun h => h₂ (by simpa [emittedNums, Event.lineNum?] using h))

theorem drainBuffer_lp_mono (buf : List (Nat × String)) (lp : Int) (pending : Bool) :
    lp ≤ (drainBuffer buf lp pending).2.1 := by
  induction buf generalizing lp pending with
  | nil => simp [drainBuffer]
  | cons e rest ih =>
    by_cases h : (e.1 : Int) > lp
    · simp only [drainBuffer, if_pos h]
      exact le_trans (le_of_lt h) (ih (e.1 : Int) false)
    · simp only [drainBuffer, if_neg h]
      exact ih lp pending

theorem drainBuffer_lp_le (buf : List (Nat × String)) (lp : Int) (pending : Bool)
    (bnd : Int) (hlp : lp ≤ bnd) (hbuf : ∀ e ∈ buf, (e.1 : Int) ≤ bnd) :
    (drainBuffer buf lp pending).2.1 ≤ bnd := by
  induction buf generalizing lp pending with
  | nil => simpa [drainBuffer] using hlp
  | cons e rest ih =>
    by_cases h : (e.1 : Int) > lp
    · simp only [drainBuffer, if_pos h]
      exact ih (e.1 : Int) false (hbuf e (List.mem_cons_self _ _))
        (fun f hf => hbuf f (List.mem_cons_of_mem _ hf))
    · simp only [drainBuffer, if_neg h]
      exact ih lp pending hlp (fun f hf => hbuf f (List.mem_cons_of_mem _ hf))

theorem drainBuffer_nums (buf : List (Nat × String)) (lp : Int) (pending : Bool)
    (hp : buf.Pairwise (fun a b => a.1 < b.1)) :
    emittedNums (drainBuffer buf lp pending).1
      = (buf.filter (fun e => decide (lp < (e.1 : Int)))).map (fun e => e.1) := by
  induction buf generalizing lp pending with
  | nil => simp [drainBuffer, emittedNums]
  | cons e rest ih =>
    rcases List.pairwise_cons.1 hp with ⟨hall, hrest⟩
    by_cases h : (e.1 : Int) > lp
    · have hfe : rest.filter (fun f => decide ((e.1 : Int) < (f.1 : Int))) = rest :=
        List.filter_eq_self.2 (fun f hf => by
          simpa using (Int.ofNat_lt.2 (hall f hf)))
      have hfl : rest.filter (fun f => decide (lp < (f.1 : Int))) = rest :=
        List.filter_eq_self.2 (fun f hf => by
          simpa using lt_trans h (Int.ofNat_lt.2 (hall f hf)))
      have hsep : emittedNums (if pending then [Event.sep] else []) = [] := by
        cases pending <;> simp [emittedNums, Event.lineNum?]
      simp only [drainBuffer, if_pos h]
      rw [emittedNums_append, hsep, List.nil_append]
      have hctx : emittedNums (Event.ctx e.1 e.2 :: (drainBuffer rest (e.1 : Int) false).1)
          = e.1 :: emittedNums (drainBuffer rest (e.1 : Int) false).1 := rfl
      rw [hctx, ih (e.1 : Int) false hrest, hfe]
      have hcons : (e :: rest).filter (fun f => decide (lp < (f.1 : Int)))
          = e :: rest.filter (fun f => decide (lp < (f.1 : Int))) := by
        simp [List.filter_cons, h]
      rw [hcons, hfl, List.map_cons]
    · simp only [drainBuffer, if_neg h]
      rw [ih lp pending hrest]
      have : ¬ (lp < (e.1 : Int)) := h
      simp [List.filter_cons, this]

theorem drainBuffer_nums_gt (buf : List (Nat × String)) (lp : Int) (pending : Bool)
    (hp : buf.Pairwise (fun a b => a.1 < b.1)) :
    ∀ k ∈ emittedNums (drainBuffer buf lp pending).1, lp < (k : Int) := by
  intro k hk
  rw [drainBuffer_nums buf lp pending hp] at hk
  rcases List.mem_map.1 hk with ⟨e, he, rfl⟩
  exact of_decide_eq_true (List.mem_filter.1 he).2

theorem drainBuffer_nums_le (buf : List (Nat × String)) (lp : Int) (pending : Bool) :
    ∀ k ∈ emittedNums (drainBuffer buf lp pending).1,
      (k : Int) ≤ (drainBuffer buf lp pending).2.1 := by
  induction buf generalizing lp pending with
  | nil => simp [drainBuffer, emittedNums]
  | cons e rest ih =>
    intro k hk
    by_cases h : (e.1 : Int) > lp
    · simp only [drainBuffer, if_pos h] at hk ⊢
      rw [emittedNums_append] at hk
      have hsep : emittedNums (if pending then [Event.sep] else []) = [] := by
        cases pending <;> simp [emittedNums, Event.lineNum?]
      rw [hsep, List.nil_append] at hk
      have hctx : emittedNums (Event.ctx e.1 e.2 :: (drainBuffer rest (e.1 : Int) false).1)
          = e.1 :: emittedNums (drainBuffer rest (e.1 : Int) false).1 := rfl
      rw [hctx] at hk
      rcases List.mem_cons.1 hk with h1 | h2
      · rw [h1]; exact drainBuffer_lp_mono rest (e.1 : Int) false
      · exact ih (e.1 : Int) false k h2
    · simp only [drainBuffer, if_neg h] at hk ⊢
      exact ih lp pending k hk

theorem drainBuffer_nums_chain (buf : List (Nat × String)) (lp : Int) (pending : Bool)
    (hp : buf.Pairwise (fun a b => a.1 < b.1)) :
    List.Chain' (· < ·) (emittedNums (drainBuffer buf lp pending).1) := by
  rw [drainBuffer_nums buf lp pending hp]
  exact List.Pairwise.chain'
    ((hp.filter _).map (fun (e : Nat × String) => e.1) (fun a b hab => hab))

theorem drainBuffer_pend (buf : List (Nat × String)) (lp : Int) (pending : Bool) :
    (drainBuffer buf lp pending).2.2
      = (pending && (emittedNums (drainBuffer buf lp pending).1).isEmpty) := by
  induction buf generalizing lp pending with
  | nil => simp [drainBuffer, emittedNums]
  | cons e rest ih =>
    by_cases h : (e.1 : Int) > lp
    · have hrec := ih (e.1 : Int) false
      have hsep : emittedNums (if pending then [Event.sep] else []) = [] := by
        cases pending <;> simp [emittedNums, Event.lineNum?]
      simp only [drainBuffer, if_pos h]
      rw [emittedNums_append, hsep, List.nil_append]
      have hctx : emittedNums (Event.ctx e.1 e.2 :: (drainBuffer rest (e.1 : Int) false).1)
          = e.1 :: emittedNums (drainBuffer rest (e.1 : Int) false).1 := rfl
      rw [hctx]
      rw [Bool.false_and] at hrec
      rw [hrec]
      simp
    · simp only [drainBuffer, if_neg h]
      exact ih lp pending

theorem drainBuffer_no_sep (buf : List (Nat × String)) (lp : Int) :
    ∀ ev ∈ (drainBuffer buf lp false).1, ev.isSep = false := by
  induction buf generalizing lp with
  | nil => intro ev hev; simp [drainBuffer] at hev
  | cons e rest ih =>
    intro ev hev
    by_cases h : (e.1 : Int) > lp
    · simp only [drainBuffer, if_pos h, if_neg (Bool.false_ne_true), List.nil_append,
        List.mem_cons] at hev
      rcases hev with rfl | hev
      · rfl
      · exact ih (e.1 : Int) ev hev
    · simp only [drainBuffer, if_neg h] at hev
      exact ih lp ev hev

theorem drainBuffer_no_matchRec (buf : List (Nat × String)) (lp : Int) (pending : Bool) :
    (drainBuffer buf lp pending).1.countP Event.isMatchRec = 0 := by
  induction buf generalizing lp pending with
  | nil => simp [drainBuffer]
  | cons e rest ih =>
    by_cases h : (e.1 : Int) > lp
    · simp only [drainBuffer, if_pos h]
      cases pending <;> simp [List.countP_cons, Event.isMatchRec, ih (e.1 : Int) false, List.countP_append]
    · simp only [drainBuffer, if_neg h]
      exact ih lp pending

theorem pushBuffer_lastPrinted (s : Settings) (st : StreamState) (n : Nat) (line : String) :
    (pushBuffer s st n line).lastPrinted = st.lastPrinted := by
  unfold pushBuffer; split <;> rfl

theorem pushBuffer_pendingSep (s : Settings) (st : StreamState) (n : Nat) (line : String) :
    (pushBuffer s st n line).pendingSep = st.pendingSep := by
  unfold pushBuffer; split <;> rfl

theorem pushBuffer_afterToPrint (s : Settings) (st : StreamState) (n : Nat) (line : String) :
    (pushBuffer s st n line).afterToPrint = st.afterToPrint := by
  unfold pushBuffer; split <;> rfl

theorem pushBuffer_matchCount (s : Settings) (st : StreamState) (n : Nat) (line : String) :
    (pushBuffer s st n line).matchCount = st.matchCount := by
  unfold pushBuffer; split <;> rfl

theorem pushBuffer_buf_inv (s : Settings) (st : StreamState) (n : Nat) (line : String)
    (hp : st.beforeBuffer.Pairwise (fun a b => a.1 < b.1))
    (hb : ∀ e ∈ st.beforeBuffer, e.1 ≤ n) :
    (pushBuffer s st (n + 1) line).beforeBuffer.Pairwise (fun a b => a.1 < b.1) ∧
    (∀ e ∈ (pushBuffer s st (n + 1) line).beforeBuffer, e.1 ≤ n + 1) := by
  have hp2 : (st.beforeBuffer ++ [(n + 1, line)]).Pairwise (fun a b => a.1 < b.1) := by
    refine List.pairwise_append.2 ⟨hp, List.pairwise_singleton _ _, ?_⟩
    intro a ha b hbm
    rcases List.mem_singleton.1 hbm with rfl
    exact Nat.lt_succ_of_le (hb a ha)
  have hb2 : ∀ e ∈ st.beforeBuffer ++ [(n + 1, line)], e.1 ≤ n + 1 := by
    intro e he
    rcases List.mem_append.1 he with he | he
    · exact Nat.le_succ_of_le (hb e he)
    · rcases List.mem_singleton.1 he with rfl; exact le_refl _
  unfold pushBuffer
  by_cases hB : 0 < s.lines_before
  · simp only [if_pos hB]
    by_cases hlen : s.lines_before < (st.beforeBuffer ++ [(n + 1, line)]).length
    · simp only [if_pos hlen]
      exact ⟨hp2.sublist (List.drop_sublist 1 _),
        fun e he => hb2 e ((List.drop_sublist 1 _).subset he)⟩
    · simp only [if_neg hlen]
      exact ⟨hp2, hb2⟩
  · simp only [if_neg hB]
    exact ⟨hp, fun e he => Nat.le_succ_of_le (hb e he)⟩

theorem processLine_notElig (s : Settings) (m : Matcher) (st : StreamState) (n : Nat)
    (line : String) (h : eligB s m line = false) :
    processLine s m st n line
      = (pushBuffer s (stepNonEligible s st n line).1 n line,
         (stepNonEligible s st n line).2, false) := by
  have h' : ((m line).1 != s.invert_match) = false := h
  simp [processLine, h']

theorem processLine_full (s : Settings) (m : Matcher) (st : StreamState) (n : Nat)
    (line : String) (h : eligB s m line = true) (hl : s.list_filenames = false)
    (hc : s.count_only = false) :
    processLine s m st n line
      = ((fullStep s m st n line).1, (fullStep s m st n line).2, false) := by
  have h' : ((m line).1 != s.invert_match) = true := h
  simp [processLine, h', hl, hc]

theorem processLine_count (s : Settings) (m : Matcher) (st : StreamState) (n : Nat)
    (line : String) (h : eligB s m line = true) (hl : s.list_filenames = false)
    (hc : s.count_only = true) :
    processLine s m st n line = ({ st with matchCount := st.matchCount + 1 }, [], false) := by
  have h' : ((m line).1 != s.invert_match) = true := h
  simp [processLine, h', hl, hc]

theorem processLine_list (s : Settings) (m : Matcher) (st : StreamState) (n : Nat)
    (line : String) (h : eligB s m line = true) (hl : s.list_filenames = true) :
    processLine s m st n line
      = (if st.fnamePrinted
         then ({ st with matchCount := st.matchCount + 1 }, [], true)
         else ({ st with matchCount := st.matchCount + 1, fnamePrinted := true },
               [Event.fname], true)) := by
  have h' : ((m line).1 != s.invert_match) = true := h
  by_cases hf : st.fnamePrinted <;> simp [processLine, h', hl, hf]

theorem drainPart_spec (s : Settings) (st : StreamState) (n : Nat)
    (hp : st.beforeBuffer.Pairwise (fun a b => a.1 < b.1))
    (hb : ∀ e ∈ st.beforeBuffer, e.1 ≤ n)
    (hlpn : st.lastPrinted ≤ (n : Int)) :
    List.Chain' (· < ·) (emittedNums (drainPart s st (n + 1)).1) ∧
    (∀ k ∈ emittedNums (drainPart s st (n + 1)).1, st.lastPrinted < (k : Int)) ∧
    (∀ k ∈ emittedNums (drainPart s st (n + 1)).1, (k : Int) ≤ (drainPart s st (n + 1)).2.1) ∧
    st.lastPrinted ≤ (drainPart s st (n + 1)).2.1 ∧
    (drainPart s st (n + 1)).2.1 ≤ (n : Int) ∧
    (drainPart s st (n + 1)).1.countP Event.isMatchRec = 0 ∧
    (pendingAfterGap s st (n + 1) = false → ∀ ev ∈ (drainPart s st (n + 1)).1, ev.isSep = false) := by
  unfold drainPart
  by_cases hB : 0 < s.lines_before
  · simp only [if_pos hB]
    refine ⟨drainBuffer_nums_chain _ _ _ hp, drainBuffer_nums_gt _ _ _ hp,
      drainBuffer_nums_le _ _ _, drainBuffer_lp_mono _ _ _,
      drainBuffer_lp_le _ _ _ (n : Int) hlpn (fun e he => Int.ofNat_le.2 (hb e he)),
      drainBuffer_no_matchRec _ _ _, ?_⟩
    intro hpend ev hev
    rw [hpend] at hev
    exact drainBuffer_no_sep _ _ ev hev
  · simp only [if_neg hB]
    refine ⟨by simp [emittedNums], by simp [emittedNums], by simp [emittedNums],
      le_refl _, hlpn, by simp, ?_⟩
    intro hpend ev hev
    simp at hev

theorem processLine_spec (s : Settings) (m : Matcher) (st : StreamState) (n : Nat)
    (line : String) (hom : s.only_matching = false) (hinv : SeqInv st n) :
    List.Chain' (· < ·) (emittedNums (processLine s m st (n + 1) line).2.1) ∧
    (∀ k ∈ emittedNums (processLine s m st (n + 1) line).2.1, st.lastPrinted < (k : Int)) ∧
    (∀ k ∈ emittedNums (processLine s m st (n + 1) line).2.1,
        (k : Int) ≤ (processLine s m st (n + 1) line).1.lastPrinted) ∧
    st.lastPrinted ≤ (processLine s m st (n + 1) line).1.lastPrinted ∧
    SeqInv (processLine s m st (n + 1) line).1 (n + 1) ∧
    (st.lastPrinted = -1 → noSepBeforeFirstLine (processLine s m st (n + 1) line).2.1 = true) ∧
    (st.lastPrinted = -1 → (processLine s m st (n + 1) line).1.lastPrinted ≠ -1 →
        emittedNums (processLine s m st (n + 1) line).2.1 ≠ []) ∧
    (s.list_filenames = false → (processLine s m st (n + 1) line).2.2 = false) ∧
    (s.count_only = false → s.list_filenames = false →
        (processLine s m st (n + 1) line).2.1.countP Event.isMatchRec
          = (if eligB s m line then 1 else 0)) ∧
    (processLine s m st (n + 1) line).1.matchCount
      = st.matchCount + (if eligB s m line then 1 else 0) := by
  rcases hinv with ⟨hpend, hlpn, hlpm1, hpair, hbnd⟩
  have hcast : ((n : Int)) < ((n + 1 : Nat) : Int) := by exact_mod_cast Nat.lt_succ_self n
  by_cases helig : eligB s m line = true
  · by_cases hl : s.list_filenames = true
    · rw [processLine_list s m st (n + 1) line helig hl]
      by_cases hf : st.fnamePrinted = true
      · simp only [hf, if_true]
        refine ⟨by simp [emittedNums], by simp [emittedNums], by simp [emittedNums],
          le_refl _, ⟨hpend, le_trans hlpn (le_of_lt hcast), hlpm1, hpair,
            fun e he => Nat.le_succ_of_le (hbnd e he)⟩,
          fun _ => rfl, fun h1 h2 => absurd h1 h2, fun h => absurd hl (by simp [h]),
          fun _ h => absurd hl (by simp [h]), by simp [helig]⟩
      · simp only [eq_false_of_ne_true hf, if_false]
        refine ⟨by simp [emittedNums, Event.lineNum?], by simp [emittedNums, Event.lineNum?],
          by simp [emittedNums, Event.lineNum?],
          le_refl _, ⟨hpend, le_trans hlpn (le_of_lt hcast), hlpm1, hpair,
            fun e he => Nat.le_succ_of_le (hbnd e he)⟩,
          fun _ => by simp [noSepBeforeFirstLine, Event.lineNum?],
          fun h1 h2 => absurd h1 h2, fun h => absurd hl (by simp [h]),
          fun _ h => absurd hl (by simp [h]), by simp [helig]⟩
    · have hl' : s.list_filenames = false := eq_false_of_ne_true hl
      by_cases hc : s.count_only = true
      · rw [processLine_count s m st (n + 1) line helig hl' hc]
        refine ⟨by simp [emittedNums], by simp [emittedNums], by simp [emittedNums],
          le_refl _, ⟨hpend, le_trans hlpn (le_of_lt hcast), hlpm1, hpair,
            fun e he => Nat.le_succ_of_le (hbnd e he)⟩,
          fun _ => rfl, fun h1 h2 => absurd h1 h2, fun _ => rfl,
          fun h _ => absurd hc (by simp [h]), by simp [helig]⟩
      · have hc' : s.count_only = false := eq_false_of_ne_true hc
        rw [processLine_full s m st (n + 1) line helig hl' hc']
        rcases drainPart_spec s st n hpair hbnd hlpn with
          ⟨hdc, hdgt, hdle, hdge, hdn, hdcnt, hdns⟩
        have hguard : ((n + 1 : Nat) : Int) > (drainPart s st (n + 1)).2.1 :=
          lt_of_le_of_lt hdn hcast
        have he : emitMatch s (n + 1) line (m line).2 (drainPart s st (n + 1)).2.1
            (drainPart s st (n + 1)).2.2
            = ((if (drainPart s st (n + 1)).2.2 then [Event.sep] else []) ++
                 [Event.matchLine (n + 1) line], ((n + 1 : Nat) : Int), false) := by
          simp only [emitMatch, if_pos hguard, hom, Bool.false_eq_true, if_false]
        have hfs : fullStep s m st (n + 1) line
            = (pushBuffer s
                 { st with matchCount := st.matchCount + 1,
                           lastPrinted := ((n + 1 : Nat) : Int), pendingSep := false,
                           afterToPrint := s.lines_after } (n + 1) line,
               (drainPart s st (n + 1)).1 ++
                 ((if (drainPart s st (n + 1)).2.2 then [Event.sep] else []) ++
                    [Event.matchLine (n + 1) line])) := by
          simp only [fullStep, he]
        rw [hfs]
        have hsepnums : emittedNums (if (drainPart s st (n + 1)).2.2
            then [Event.sep] else []) = [] := by
          cases (drainPart s st (n + 1)).2.2 <;> simp [emittedNums, Event.lineNum?]
        have hnums : emittedNums ((drainPart s st (n + 1)).1 ++
            ((if (drainPart s st (n + 1)).2.2 then [Event.sep] else []) ++
               [Event.matchLine (n + 1) line]))
            = emittedNums (drainPart s st (n + 1)).1 ++ [n + 1] := by
          rw [emittedNums_append, emittedNums_append, hsepnums, List.nil_append]
          rfl
        have hnle : ∀ k ∈ emittedNums (drainPart s st (n + 1)).1, k < n + 1 := by
          intro k hk
          have h1 : (k : Int) ≤ (n : Int) := le_trans (hdle k hk) hdn
          have h2 : k ≤ n := by exact_mod_cast h1
          exact Nat.lt_succ_of_le h2
        have hlp2 : (pushBuffer s
            { st with matchCount := st.matchCount + 1,
                      lastPrinted := ((n + 1 : Nat) : Int), pendingSep := false,
                      afterToPrint := s.lines_after } (n + 1) line).lastPrinted
            = ((n + 1 : Nat) : Int) := pushBuffer_lastPrinted _ _ _ _
        refine ⟨?_, ?_, ?_, ?_, ?_, ?_, ?_, fun _ => rfl, ?_, ?_⟩
        · rw [hnums]
          refine List.Chain'.append hdc (List.chain'_singleton _) ?_
          intro x hx y hy
          have hy' : n + 1 = y := by simpa using hy
          have hx' : x ∈ emittedNums (drainPart s st (n + 1)).1 :=
            List.mem_of_getLast?_eq_some hx
          rw [← hy']
          exact hnle x hx'
        · rw [hnums]
          intro k hk
          rcases List.mem_append.1 hk with hk | hk
          · exact hdgt k hk
          · rcases List.mem_singleton.1 hk with rfl
            exact lt_of_le_of_lt hlpn hcast
        · rw [hnums, hlp2]
          intro k hk
          rcases List.mem_append.1 hk with hk | hk
          · exact le_trans (hdle k hk) (le_of_lt hguard)
          · rcases List.mem_singleton.1 hk with rfl
            exact le_refl _
        · rw [hlp2]
          exact le_trans hlpn (le_of_lt hcast)
        · rcases pushBuffer_buf_inv s
              { st with matchCount := st.matchCount + 1,
                        lastPrinted := ((n + 1 : Nat) : Int), pendingSep := false,
                        afterToPrint := s.lines_after } n line hpair hbnd with ⟨hbp, hbb⟩
          refine ⟨by rw [pushBuffer_pendingSep], by rw [hlp2], ?_, hbp, hbb⟩
          rw [hlp2]
          omega
        · intro hlp
          have hpg : pendingAfterGap s st (n + 1) = false := by
            simp [pendingAfterGap, hlp, hpend]
          have hdd : (drainPart s st (n + 1)).2.2 = false := by
            unfold drainPart
            by_cases hB : 0 < s.lines_before
            · simp only [if_pos hB]
              rw [drainBuffer_pend, hpg, Bool.false_and]
            · simp only [if_neg hB, hpg]
          rw [hdd]
          refine noSep_append ?_ ?_
          · exact noSep_of_no_sep (hdns hpg)
          · intro _
            simp [noSepBeforeFirstLine, Event.lineNum?]
        · intro _ _
          rw [hnums]
          simp
        · intro _ _
          rw [List.countP_append, List.countP_append, hdcnt]
          have h1 : (if (drainPart s st (n + 1)).2.2 then [Event.sep] else []).countP
              Event.isMatchRec = 0 := by
            cases (drainPart s st (n + 1)).2.2 <;> simp [Event.isMatchRec]
          rw [h1]
          simp [Event.isMatchRec, helig]
        · rw [pushBuffer_matchCount]
          simp [helig]
  · have helig' : eligB s m line = false := eq_false_of_ne_true helig
    rw [processLine_notElig s m st (n + 1) line helig']
    have hg : ((n + 1 : Nat) : Int) > st.lastPrinted := lt_of_le_of_lt hlpn hcast
    by_cases hA : 0 < st.afterToPrint
    · have hse : stepNonEligible s st (n + 1) line
          = ({ st with lastPrinted := ((n + 1 : Nat) : Int), pendingSep := false,
                       afterToPrint := st.afterToPrint - 1 },
             [Event.ctx (n + 1) line]) := by
        simp only [stepNonEligible, if_pos hA, if_pos hg, hpend, Bool.false_eq_true, if_false,
          List.nil_append]
      rw [hse]
      have hnums : emittedNums [Event.ctx (n + 1) line] = [n + 1] := rfl
      have hlp2 : (pushBuffer s
          { st with lastPrinted := ((n + 1 : Nat) : Int), pendingSep := false,
                    afterToPrint := st.afterToPrint - 1 } (n + 1) line).lastPrinted
          = ((n + 1 : Nat) : Int) := pushBuffer_lastPrinted _ _ _ _
      refine ⟨by rw [hnums]; exact List.chain'_singleton _, ?_, ?_, ?_, ?_, ?_, ?_,
        fun _ => rfl, ?_, ?_⟩
      · rw [hnums]; intro k hk; rcases List.mem_singleton.1 hk with rfl; exact hg
      · rw [hnums, hlp2]; intro k hk; rcases List.mem_singleton.1 hk with rfl; exact le_refl _
      · rw [hlp2]; exact le_of_lt hg
      · rcases pushBuffer_buf_inv s
            { st with lastPrinted := ((n + 1 : Nat) : Int), pendingSep := false,
                      afterToPrint := st.afterToPrint - 1 } n line hpair hbnd with ⟨hbp, hbb⟩
        refine ⟨by rw [pushBuffer_pendingSep], by rw [hlp2], ?_, hbp, hbb⟩
        rw [hlp2]
        omega
      · intro _; simp [noSepBeforeFirstLine, Event.lineNum?]
      · intro _ _; rw [hnums]; simp
      · intro _ _; simp [Event.isMatchRec, helig']
      · rw [pushBuffer_matchCount]; simp [helig']
    · have hse : stepNonEligible s st (n + 1) line = (st, []) := by
        simp only [stepNonEligible, if_neg hA]
      rw [hse]
      have hlp2 : (pushBuffer s st (n + 1) line).lastPrinted = st.lastPrinted :=
        pushBuffer_lastPrinted _ _ _ _
      refine ⟨by simp [emittedNums], by simp [emittedNums], by simp [emittedNums],
        by rw [hlp2], ?_, fun _ => rfl, ?_, fun _ => rfl, ?_, ?_⟩
      · rcases pushBuffer_buf_inv s st n line hpair hbnd with ⟨hbp, hbb⟩
        exact ⟨by rw [pushBuffer_pendingSep]; exact hpend,
          by rw [hlp2]; exact le_trans hlpn (le_of_lt hcast),
          by rw [hlp2]; exact hlpm1, hbp, hbb⟩
      · intro h1 h2
        rw [hlp2] at h2
        exact absurd h1 h2
      · intro _ _; simp [Event.isMatchRec, helig']
      · rw [pushBuffer_matchCount]; simp [helig']

theorem processLinesAux_spec (s : Settings) (m : Matcher) (hom : s.only_matching = false) :
    ∀ (lines : List String) (st : StreamState) (n : Nat), SeqInv st n →
    List.Chain' (· < ·) (emittedNums (processLinesAux s m st n lines).2.1) ∧
    (∀ k ∈ emittedNums (processLinesAux s m st n lines).2.1, st.lastPrinted < (k : Int)) ∧
    (∀ k ∈ emittedNums (processLinesAux s m st n lines).2.1,
        (k : Int) ≤ (processLinesAux s m st n lines).1.lastPrinted) ∧
    st.lastPrinted ≤ (processLinesAux s m st n lines).1.lastPrinted ∧
    (st.lastPrinted = -1 → noSepBeforeFirstLine (processLinesAux s m st n lines).2.1 = true) ∧
    (st.lastPrinted = -1 → (processLinesAux s m st n lines).1.lastPrinted ≠ -1 →
        emittedNums (processLinesAux s m st n lines).2.1 ≠ []) ∧
    (s.count_only = false → s.list_filenames = false →
        (processLinesAux s m st n lines).2.1.countP Event.isMatchRec
          = lines.countP (eligB s m)) ∧
    (s.list_filenames = false →
        (processLinesAux s m st n lines).1.matchCount
          = st.matchCount + lines.countP (eligB s m)) := by
  intro lines
  induction lines with
  | nil =>
    intro st n hinv
    refine ⟨by simp [processLinesAux, emittedNums], by simp [processLinesAux, emittedNums],
      by simp [processLinesAux, emittedNums], le_refl _, fun _ => rfl, ?_,
      fun _ _ => by simp [processLinesAux], fun _ => by simp [processLinesAux]⟩
    intro h1 h2
    exact absurd h1 h2
  | cons line rest ih =>
    intro st n hinv
    obtain ⟨hc1, hc2, hc3, hc4, hc5, hc6, hc7, hc8, hc9, hc10⟩ :=
      processLine_spec s m st n line hom hinv
    by_cases hstop : (processLine s m st (n + 1) line).2.2 = true
    · have heq : processLinesAux s m st n (line :: rest)
          = ((processLine s m st (n + 1) line).1, (processLine s m st (n + 1) line).2.1,
             true) := by
        simp only [processLinesAux, hstop, if_true]
      rw [heq]
      have hlist : s.list_filenames = true := by
        by_contra hlf
        exact absurd (hc8 (eq_false_of_ne_true hlf)) (by simp [hstop])
      exact ⟨hc1, hc2, hc3, hc4, hc6, hc7,
        fun _ h => absurd hlist (by simp [h]), fun h => absurd hlist (by simp [h])⟩
    · have hstop' : (processLine s m st (n + 1) line).2.2 = false :=
        eq_false_of_ne_true hstop
      have heq : processLinesAux s m st n (line :: rest)
          = ((processLinesAux s m (processLine s m st (n + 1) line).1 (n + 1) rest).1,
             (processLine s m st (n + 1) line).2.1 ++
               (processLinesAux s m (processLine s m st (n + 1) line).1 (n + 1) rest).2.1,
             (processLinesAux s m (processLine s m st (n + 1) line).1 (n + 1) rest).2.2) := by
        simp only [processLinesAux, hstop', Bool.false_eq_true, if_false]
      obtain ⟨ih1, ih2, ih3, ih4, ih5, ih6, ih7, ih8⟩ :=
        ih (processLine s m st (n + 1) line).1 (n + 1) hc5
      rw [heq]
      refine ⟨?_, ?_, ?_, le_trans hc4 ih4, ?_, ?_, ?_, ?_⟩
      · rw [emittedNums_append]
        refine List.Chain'.append hc1 ih1 ?_
        intro x hx y hy
        have hx' : (x : Int) ≤ (processLine s m st (n + 1) line).1.lastPrinted :=
          hc3 x (List.mem_of_getLast?_eq_some hx)
        have hy' : (processLine s m st (n + 1) line).1.lastPrinted < (y : Int) :=
          ih2 y (List.mem_of_mem_head? hy)
        exact_mod_cast lt_of_le_of_lt hx' hy'
      · rw [emittedNums_append]
        intro k hk
        rcases List.mem_append.1 hk with hk | hk
        · exact hc2 k hk
        · exact lt_of_le_of_lt hc4 (ih2 k hk)
      · rw [emittedNums_append]
        intro k hk
        rcases List.mem_append.1 hk with hk | hk
        · exact le_trans (hc3 k hk) ih4
        · exact ih3 k hk
      · intro hlp
        refine noSep_append (hc6 hlp) ?_
        intro hnil
        have hrlp : (processLine s m st (n + 1) line).1.lastPrinted = -1 := by
          by_contra hne
          exact absurd hnil (hc7 hlp hne)
        exact ih5 hrlp
      · intro hlp hne
        rw [emittedNums_append]
        by_cases hrlp : (processLine s m st (n + 1) line).1.lastPrinted = -1
        · have h2 := ih6 hrlp hne
          intro hcon
          exact h2 (List.append_eq_nil.1 hcon).2
        · have h2 := hc7 hlp hrlp
          intro hcon
          exact h2 (List.append_eq_nil.1 hcon).1
      · intro hcnt hlst
        rw [List.countP_append, hc9 hcnt hlst, ih7 hcnt hlst, List.countP_cons]
        omega
      · intro hlst
        rw [ih8 hlst, hc10, List.countP_cons]
        omega

theorem seqInv_init : SeqInv initState 0 := by
  refine ⟨rfl, by norm_num [initState], by norm_num [initState], ?_, ?_⟩
  · simp [initState]
  · simp [initState]

theorem pushBuffer_zero (s : Settings) (st : StreamState) (n : Nat) (line : String)
    (hB : s.lines_before = 0) : pushBuffer s st n line = st := by
  unfold pushBuffer
  rw [hB]
  simp

theorem lpTok_neg : lpTok (-1) = none := rfl

theorem lpTok_natCast (k : Nat) : lpTok ((k : Nat) : Int) = some k := by
  simp [lpTok]

theorem lpTok_nonneg (lp : Int) (h1 : (-1 : Int) ≤ lp) (h2 : lp ≠ -1) :
    lpTok lp = some lp.toNat := by
  have : ¬ lp < 0 := by omega
  simp [lpTok, this]

theorem process_stream_nums (s : Settings) (m : Matcher) (lines : List String) :
    emittedNums (process_stream s m lines)
      = emittedNums (processLinesAux s m initState 0 lines).2.1 := by
  unfold process_stream processStreamFull
  by_cases h : (processLinesAux s m initState 0 lines).2.2 = true
  · simp only [h, if_true]
  · simp only [eq_false_of_ne_true h, Bool.false_eq_true, if_false]
    rw [emittedNums_append]
    have h2 : emittedNums (if s.count_only then
        [Event.countRec (processLinesAux s m initState 0 lines).1.matchCount] else []) = [] := by
      cases s.count_only <;> simp [emittedNums, Event.lineNum?]
    rw [h2, List.append_nil]

theorem process_stream_toks (s : Settings) (m : Matcher) (lines : List String) :
    toks (process_stream s m lines)
      = toks (processLinesAux s m initState 0 lines).2.1 := by
  unfold process_stream processStreamFull
  by_cases h : (processLinesAux s m initState 0 lines).2.2 = true
  · simp only [h, if_true]
  · simp only [eq_false_of_ne_true h, Bool.false_eq_true, if_false]
    rw [toks_append]
    have h2 : toks (if s.count_only then
        [Event.countRec (processLinesAux s m initState 0 lines).1.matchCount] else []) = [] := by
      cases s.count_only <;> simp [toks, Event.lineNum?]
    rw [h2, List.append_nil]

theorem process_stream_noSep (s : Settings) (m : Matcher) (lines : List String)
    (h : noSepBeforeFirstLine (processLinesAux s m initState 0 lines).2.1 = true) :
    noSepBeforeFirstLine (process_stream s m lines) = true := by
  unfold process_stream processStreamFull
  by_cases hstop : (processLinesAux s m initState 0 lines).2.2 = true
  · simp only [hstop, if_true]
    exact h
  · simp only [eq_false_of_ne_true hstop, Bool.false_eq_true, if_false]
    refine noSep_append h ?_
    intro _
    cases s.count_only <;> simp [noSepBeforeFirstLine, Event.lineNum?]

theorem processLine_spec2 (s : Settings) (m : Matcher) (st : StreamState) (n : Nat)
    (line : String) (hom : s.only_matching = false) (hB : s.lines_before = 0)
    (hA : 0 < s.lines_after) (hinv : SeqInv2 s st n) :
    SeqInv2 s (processLine s m st (n + 1) line).1 (n + 1) ∧
    ((toks (processLine s m st (n + 1) line).2.1 = [] ∧
        (processLine s m st (n + 1) line).1.lastPrinted = st.lastPrinted) ∨
     (toks (processLine s m st (n + 1) line).2.1 = [some (n + 1)] ∧
        (processLine s m st (n + 1) line).1.lastPrinted = ((n + 1 : Nat) : Int) ∧
        (∀ a, lpTok st.lastPrinted = some a → n + 1 ≤ a + 1)) ∨
     (∃ a, lpTok st.lastPrinted = some a ∧ a + 1 < n + 1 ∧
        toks (processLine s m st (n + 1) line).2.1 = [none, some (n + 1)] ∧
        (processLine s m st (n + 1) line).1.lastPrinted = ((n + 1 : Nat) : Int))) := by
  rcases hinv with ⟨hpend, hlpn, hlpm1, hafter⟩
  have hcast : ((n : Int)) < ((n + 1 : Nat) : Int) := by exact_mod_cast Nat.lt_succ_self n
  by_cases helig : eligB s m line = true
  · by_cases hl : s.list_filenames = true
    · rw [processLine_list s m st (n + 1) line helig hl]
      by_cases hf : st.fnamePrinted = true
      · simp only [hf, if_true]
        refine ⟨⟨hpend, le_trans hlpn (le_of_lt hcast), hlpm1, ?_⟩,
          Or.inl ⟨?_, ?_⟩⟩
        · intro hA2
          exact absurd (hafter hA2).2.2 (by simp [hl])
        · simp [toks]
        · trivial
      · simp only [eq_false_of_ne_true hf, if_false]
        refine ⟨⟨hpend, le_trans hlpn (le_of_lt hcast), hlpm1, ?_⟩,
          Or.inl ⟨?_, ?_⟩⟩
        · intro hA2
          exact absurd (hafter hA2).2.2 (by simp [hl])
        · simp [toks, Event.lineNum?]
        · trivial
    · have hl' : s.list_filenames = false := eq_false_of_ne_true hl
      by_cases hc : s.count_only = true
      · rw [processLine_count s m st (n + 1) line helig hl' hc]
        refine ⟨⟨hpend, le_trans hlpn (le_of_lt hcast), hlpm1, ?_⟩,
          Or.inl ⟨?_, ?_⟩⟩
        · intro hA2
          exact absurd (hafter hA2).2.1 (by simp [hc])
        · simp [toks]
        · trivial
      · have hc' : s.count_only = false := eq_false_of_ne_true hc
        rw [processLine_full s m st (n + 1) line helig hl' hc']
        have hdp : drainPart s st (n + 1)
            = ([], st.lastPrinted, pendingAfterGap s st (n + 1)) := by
          unfold drainPart
          simp [hB]
        have hguard : ((n + 1 : Nat) : Int) > st.lastPrinted := lt_of_le_of_lt hlpn hcast
        have hfs : fullStep s m st (n + 1) line
            = ({ st with matchCount := st.matchCount + 1,
                         lastPrinted := ((n + 1 : Nat) : Int), pendingSep := false,
                         afterToPrint := s.lines_after },
               (if pendingAfterGap s st (n + 1) then [Event.sep] else []) ++
                 [Event.matchLine (n + 1) line]) := by
          simp only [fullStep, hdp]
          rw [show emitMatch s (n + 1) line (m line).2 st.lastPrinted
                (pendingAfterGap s st (n + 1))
              = ((if pendingAfterGap s st (n + 1) then [Event.sep] else []) ++
                   [Event.matchLine (n + 1) line], ((n + 1 : Nat) : Int), false) from by
            simp only [emitMatch, if_pos hguard, hom, Bool.false_eq_true, if_false]]
          rw [pushBuffer_zero s _ (n + 1) line hB]
          simp
        rw [hfs]
        have hinv2 : SeqInv2 s
            { st with matchCount := st.matchCount + 1,
                      lastPrinted := ((n + 1 : Nat) : Int), pendingSep := false,
                      afterToPrint := s.lines_after } (n + 1) :=
          ⟨rfl, le_refl _, by show (-1 : Int) ≤ ((n + 1 : Nat) : Int); omega,
            fun _ => ⟨rfl, hc', hl'⟩⟩
        refine ⟨hinv2, ?_⟩
        by_cases hlp : st.lastPrinted = -1
        · have hpg : pendingAfterGap s st (n + 1) = false := by
            simp [pendingAfterGap, hlp, hpend]
          rw [hpg]
          refine Or.inr (Or.inl ⟨by simp [toks, Event.lineNum?], rfl, ?_⟩)
          intro a ha
          rw [hlp] at ha
          simp [lpTok] at ha
        · have htok : lpTok st.lastPrinted = some st.lastPrinted.toNat :=
            lpTok_nonneg st.lastPrinted hlpm1 hlp
          by_cases hgap : ((n + 1 : Nat) : Int) > st.lastPrinted + 1
          · have hpg : pendingAfterGap s st (n + 1) = true := by
              unfold pendingAfterGap
              rw [if_pos]
              simp only [Bool.and_eq_true, Bool.or_eq_true, decide_eq_true_eq]
              exact ⟨⟨Or.inr hA, hlp⟩, hgap⟩
            rw [hpg]
            refine Or.inr (Or.inr ⟨st.lastPrinted.toNat, htok, ?_,
              by simp [toks, Event.lineNum?], rfl⟩)
            omega
          · have hpg : pendingAfterGap s st (n + 1) = false := by
              unfold pendingAfterGap
              rw [if_neg, hpend]
              simp only [Bool.and_eq_true, Bool.or_eq_true, decide_eq_true_eq]
              rintro ⟨⟨-, -⟩, hg3⟩
              exact hgap hg3
            rw [hpg]
            refine Or.inr (Or.inl ⟨by simp [toks, Event.lineNum?], rfl, ?_⟩)
            intro a ha
            rw [htok] at ha
            have ha' : st.lastPrinted.toNat = a := Option.some.inj ha
            omega
  · have helig' : eligB s m line = false := eq_false_of_ne_true helig
    rw [processLine_notElig s m st (n + 1) line helig']
    rw [pushBuffer_zero s _ (n + 1) line hB]
    by_cases hAc : 0 < st.afterToPrint
    · obtain ⟨hlpeq, hc', hl'⟩ := hafter hAc
      have hg : ((n + 1 : Nat) : Int) > st.lastPrinted := lt_of_le_of_lt hlpn hcast
      have hse : stepNonEligible s st (n + 1) line
          = ({ st with lastPrinted := ((n + 1 : Nat) : Int), pendingSep := false,
                       afterToPrint := st.afterToPrint - 1 },
             [Event.ctx (n + 1) line]) := by
        simp only [stepNonEligible, if_pos hAc, if_pos hg, hpend, Bool.false_eq_true, if_false,
          List.nil_append]
      rw [hse]
      refine ⟨⟨rfl, le_refl _, by show (-1 : Int) ≤ ((n + 1 : Nat) : Int); omega,
        fun _ => ⟨rfl, hc', hl'⟩⟩, ?_⟩
      refine Or.inr (Or.inl ⟨by simp [toks, Event.lineNum?], rfl, ?_⟩)
      intro a ha
      rw [hlpeq, lpTok_natCast] at ha
      have ha' : n = a := Option.some.inj ha
      omega
    · have hse : stepNonEligible s st (n + 1) line = (st, []) := by
        simp only [stepNonEligible, if_neg hAc]
      rw [hse]
      refine ⟨⟨hpend, le_trans hlpn (le_of_lt hcast), hlpm1, ?_⟩,
        Or.inl ⟨?_, ?_⟩⟩
      · intro hA2
        exact absurd hA2 hAc
      · simp [toks]
      · trivial

theorem processLinesAux_spec2 (s : Settings) (m : Matcher) (hom : s.only_matching = false)
    (hB : s.lines_before = 0) (hA : 0 < s.lines_after) :
    ∀ (lines : List String) (st : StreamState) (n : Nat), SeqInv2 s st n →
    sepExactFrom (lpTok st.lastPrinted) (toks (processLinesAux s m st n lines).2.1) = true := by
  intro lines
  induction lines with
  | nil =>
    intro st n _
    simp [processLinesAux, toks, sepExactFrom]
  | cons line rest ih =>
    intro st n hinv
    obtain ⟨hinv', hshape⟩ := processLine_spec2 s m st n line hom hB hA hinv
    by_cases hstop : (processLine s m st (n + 1) line).2.2 = true
    · have heq : processLinesAux s m st n (line :: rest)
          = ((processLine s m st (n + 1) line).1, (processLine s m st (n + 1) line).2.1,
             true) := by
        simp only [processLinesAux, hstop, if_true]
      rw [heq]
      rcases hshape with ⟨ht, _⟩ | ⟨ht, _, hside⟩ | ⟨a, hlast, hlt, ht, _⟩
      · rw [ht]; rfl
      · rw [ht]
        cases hlast : lpTok st.lastPrinted with
        | none => simp [sepExactFrom]
        | some a =>
          have := hside a hlast
          simp only [sepExactFrom]
          simp [this]
      · rw [ht, hlast]
        simp only [sepExactFrom]
        simp [hlt]
    · have hstop' : (processLine s m st (n + 1) line).2.2 = false :=
        eq_false_of_ne_true hstop
      have heq : processLinesAux s m st n (line :: rest)
          = ((processLinesAux s m (processLine s m st (n + 1) line).1 (n + 1) rest).1,
             (processLine s m st (n + 1) line).2.1 ++
               (processLinesAux s m (processLine s m st (n + 1) line).1 (n + 1) rest).2.1,
             (processLinesAux s m (processLine s m st (n + 1) line).1 (n + 1) rest).2.2) := by
        simp only [processLinesAux, hstop', Bool.false_eq_true, if_false]
      rw [heq]
      have hih := ih (processLine s m st (n + 1) line).1 (n + 1) hinv'
      rcases hshape with ⟨ht, hlp⟩ | ⟨ht, hlp, hside⟩ | ⟨a, hlast, hlt, ht, hlp⟩
      · rw [toks_append, ht, List.nil_append]
        rw [hlp] at hih
        exact hih
      · rw [toks_append, ht, List.cons_append, List.nil_append]
        rw [hlp, lpTok_natCast] at hih
        cases hlast : lpTok st.lastPrinted with
        | none => simp only [sepExactFrom]; simp [hih]
        | some a =>
          have := hside a hlast
          simp only [sepExactFrom]
          simp [this, hih]
      · rw [toks_append, ht, List.cons_append, List.cons_append, List.nil_append, hlast]
        rw [hlp, lpTok_natCast] at hih
        simp only [sepExactFrom]
        simp [hlt, hih]

theorem seqInv2_init (s : Settings) : SeqInv2 s initState 0 := by
  refine ⟨rfl, by norm_num [initState], by norm_num [initState], ?_⟩
  intro h
  simp [initState] at h

/-- C1 (amended): for every stream processed by process_stream with a
whole-line output mode (only-matching off), the sequence of line numbers
of the emitted line records (match lines, before-context lines and
trailing-context lines; separators excluded) is strictly increasing, so
no line is emitted twice.  The amendment restricts the claim to
only-matching off: in matched-portion mode one matched line emits one
output record per span, so its line number repeats (see the
counterexample). -/
theorem C1_emitted_line_numbers_strictly_increasing (s : Settings) (m : Matcher)
    (lines : List String) (hom : s.only_matching = false) :
    List.Chain' (· < ·) (emittedNums (process_stream s m lines)) ∧
    (emittedNums (process_stream s m lines)).Nodup := by
  obtain ⟨h1, _, _, _, _, _, _, _⟩ :=
    processLinesAux_spec s m hom lines initState 0 seqInv_init
  rw [process_stream_nums]
  refine ⟨h1, ?_⟩
  have hpw : (emittedNums (processLinesAux s m initState 0 lines).2.1).Pairwise (· < ·) :=
    List.chain'_iff_pairwise.1 h1
  exact hpw.imp Nat.ne_of_lt

/-- Witness for C1 at a concrete run: pattern a, one line of context on
each side, input lines a, b, a. -/
theorem C1_emitted_line_numbers_strictly_increasing_witness :
    ({ patterns := ["a"], lines_before := 1, lines_after := 1 } : Settings).only_matching
        = false ∧
    (List.Chain' (· < ·) (emittedNums (process_stream
        { patterns := ["a"], lines_before := 1, lines_after := 1 }
        (simpleMatcher { patterns := ["a"], lines_before := 1, lines_after := 1 })
        ["a", "b", "a"])) ∧
     (emittedNums (process_stream
        { patterns := ["a"], lines_before := 1, lines_after := 1 }
        (simpleMatcher { patterns := ["a"], lines_before := 1, lines_after := 1 })
        ["a", "b", "a"])).Nodup) :=
  ⟨rfl, C1_emitted_line_numbers_strictly_increasing
    { patterns := ["a"], lines_before := 1, lines_after := 1 }
    (simpleMatcher { patterns := ["a"], lines_before := 1, lines_after := 1 })
    ["a", "b", "a"] rfl⟩

/-- Counterexample to C1 as stated: in matched-portion mode, the line aa
with pattern a yields two output records, both with line number 1, so the
emitted line-number sequence 1, 1 is not strictly increasing and the line
is emitted twice. -/
theorem C1_counterexample_only_matching_duplicates :
    emittedNums (process_stream { only_matching := true, patterns := ["a"] }
        (simpleMatcher { only_matching := true, patterns := ["a"] }) ["aa"]) = [1, 1] ∧
    ¬ List.Chain' (· < ·)
        (emittedNums (process_stream { only_matching := true, patterns := ["a"] }
          (simpleMatcher { only_matching := true, patterns := ["a"] }) ["aa"])) := by
  have h1 : emittedNums (process_stream { only_matching := true, patterns := ["a"] }
      (simpleMatcher { only_matching := true, patterns := ["a"] }) ["aa"]) = [1, 1] := by
    decide
  refine ⟨h1, ?_⟩
  rw [h1]
  intro hch
  simp [List.chain'_cons] at hch

/-- C2 (amended): with whole-line output (only-matching off), no
separator is ever emitted before the first emitted line record; and in
runs with no before context and positive after context, a separator
appears exactly at the points where consecutive emitted line numbers
differ by more than 1 (never first, never last, never doubled).  The
amendment drops exactness for runs with before context, where a
separator triggered by a gap between the match line and lastEmitted can
be emitted even though the drained before-context lines bridge the gap
(see the counterexample). -/
theorem C2_separator_placement (s : Settings) (m : Matcher) (lines : List String)
    (hom : s.only_matching = false) :
    noSepBeforeFirstLine (process_stream s m lines) = true ∧
    (s.lines_before = 0 → 0 < s.lines_after →
      sepExactFrom none (toks (process_stream s m lines)) = true) := by
  constructor
  · obtain ⟨_, _, _, _, h5, _, _, _⟩ :=
      processLinesAux_spec s m hom lines initState 0 seqInv_init
    exact process_stream_noSep s m lines (h5 rfl)
  · intro hB hA
    have h := processLinesAux_spec2 s m hom hB hA lines initState 0 (seqInv2_init s)
    rw [process_stream_toks]
    simpa [initState, lpTok] using h

/-- Witness for C2 at a concrete run: pattern a, after context 1, input
lines a, b, c, a, producing a separator exactly at the gap. -/
theorem C2_separator_placement_witness :
    ({ patterns := ["a"], lines_after := 1 } : Settings).only_matching = false ∧
    (noSepBeforeFirstLine (process_stream { patterns := ["a"], lines_after := 1 }
        (simpleMatcher { patterns := ["a"], lines_after := 1 }) ["a", "b", "c", "a"]) = true ∧
     (({ patterns := ["a"], lines_after := 1 } : Settings).lines_before = 0 →
      0 < ({ patterns := ["a"], lines_after := 1 } : Settings).lines_after →
      sepExactFrom none (toks (process_stream { patterns := ["a"], lines_after := 1 }
        (simpleMatcher { patterns := ["a"], lines_after := 1 }) ["a", "b", "c", "a"])) = true)) :=
  ⟨rfl, C2_separator_placement { patterns := ["a"], lines_after := 1 }
    (simpleMatcher { patterns := ["a"], lines_after := 1 }) ["a", "b", "c", "a"] rfl⟩

/-- Counterexample to C2 as stated: pattern a, before context 1, input
lines a, b, a.  The emitted line numbers are 1, 2, 3 with no gap greater
than 1, yet a separator is emitted between lines 1 and 2, because the
separator decision compares the match line number 3 against lastEmitted 1
before the buffered line 2 bridges the gap. -/
theorem C2_counterexample_bridged_gap :
    toks (process_stream { lines_before := 1, patterns := ["a"] }
        (simpleMatcher { lines_before := 1, patterns := ["a"] }) ["a", "b", "a"])
      = [some 1, none, some 2, some 3] ∧
    sepExactFrom none (toks (process_stream { lines_before := 1, patterns := ["a"] }
        (simpleMatcher { lines_before := 1, patterns := ["a"] }) ["a", "b", "a"])) = false := by
  constructor
  · decide
  · decide

theorem processLinesAux_count (s : Settings) (m : Matcher) (hc : s.count_only = true)
    (hl : s.list_filenames = false) :
    ∀ (lines : List String) (st : StreamState) (n : Nat), st.afterToPrint = 0 →
    (processLinesAux s m st n lines).2.1 = [] ∧
    (processLinesAux s m st n lines).2.2 = false ∧
    (processLinesAux s m st n lines).1.matchCount
      = st.matchCount + lines.countP (eligB s m) ∧
    (processLinesAux s m st n lines).1.afterToPrint = 0 := by
  intro lines
  induction lines with
  | nil =>
    intro st n h
    exact ⟨rfl, rfl, by simp [processLinesAux], h⟩
  | cons line rest ih =>
    intro st n hafter
    by_cases helig : eligB s m line = true
    · have hpl := processLine_count s m st (n + 1) line helig hl hc
      have heq : processLinesAux s m st n (line :: rest)
          = ((processLinesAux s m { st with matchCount := st.matchCount + 1 } (n + 1) rest).1,
             [] ++ (processLinesAux s m { st with matchCount := st.matchCount + 1 }
                      (n + 1) rest).2.1,
             (processLinesAux s m { st with matchCount := st.matchCount + 1 }
                (n + 1) rest).2.2) := by
        simp only [processLinesAux, hpl, Bool.false_eq_true, if_false]
      obtain ⟨i1, i2, i3, i4⟩ :=
        ih { st with matchCount := st.matchCount + 1 } (n + 1) hafter
      rw [heq]
      refine ⟨by rw [List.nil_append]; exact i1, i2, ?_, i4⟩
      rw [i3, List.countP_cons]
      simp only [helig, if_true]
      omega
    · have hse : stepNonEligible s st (n + 1) line = (st, []) := by
        simp [stepNonEligible, hafter]
      have hpl := processLine_notElig s m st (n + 1) line (eq_false_of_ne_true helig)
      rw [hse] at hpl
      have heq : processLinesAux s m st n (line :: rest)
          = ((processLinesAux s m (pushBuffer s st (n + 1) line) (n + 1) rest).1,
             [] ++ (processLinesAux s m (pushBuffer s st (n + 1) line) (n + 1) rest).2.1,
             (processLinesAux s m (pushBuffer s st (n + 1) line) (n + 1) rest).2.2) := by
        simp only [processLinesAux, hpl, Bool.false_eq_true, if_false]
      obtain ⟨i1, i2, i3, i4⟩ := ih (pushBuffer s st (n + 1) line) (n + 1)
        (by rw [pushBuffer_afterToPrint]; exact hafter)
      rw [heq]
      refine ⟨by rw [List.nil_append]; exact i1, i2, ?_, i4⟩
      rw [i3, pushBuffer_matchCount, List.countP_cons]
      simp only [eq_false_of_ne_true helig, Bool.false_eq_true, if_false]
      omega

theorem countP_not_split (p : String → Bool) (l : List String) :
    l.countP (fun x => !(p x)) + l.countP p = l.length := by
  induction l with
  | nil => rfl
  | cons a t ih =>
    by_cases h : p a = true <;>
      simp [List.countP_cons, h] <;> omega

/-- C7: a count-only run emits no context lines and no match text, only
the single final count record, and the count it reports equals the number
of output-eligible lines, which is exactly the number of match lines a
full-output run over the same input with the same matching configuration
emits. -/
theorem C7_count_mode_refines_full_output (s : Settings) (m : Matcher) (lines : List String)
    (hl : s.list_filenames = false) (hom : s.only_matching = false) :
    process_stream { s with count_only := true } m lines
      = [Event.countRec (lines.countP (eligB s m))] ∧
    (process_stream { s with count_only := false } m lines).countP Event.isMatchRec
      = lines.countP (eligB s m) := by
  constructor
  · obtain ⟨e1, e2, e3, _⟩ :=
      processLinesAux_count { s with count_only := true } m rfl hl lines initState 0 rfl
    unfold process_stream processStreamFull
    simp only [e2, Bool.false_eq_true, if_false]
    rw [e1, List.nil_append, e3]
    show [Event.countRec (0 + lines.countP (eligB s m))]
        = [Event.countRec (lines.countP (eligB s m))]
    rw [Nat.zero_add]
  · obtain ⟨_, _, _, _, _, _, h7, _⟩ :=
      processLinesAux_spec { s with count_only := false } m hom lines initState 0 seqInv_init
    unfold process_stream processStreamFull
    by_cases hstop : (processLinesAux { s with count_only := false } m initState 0 lines).2.2
        = true
    · simp only [hstop, if_true]
      exact h7 rfl hl
    · simp only [eq_false_of_ne_true hstop, Bool.false_eq_true, if_false]
      rw [List.append_nil]
      exact h7 rfl hl

/-- Witness for C7 at a concrete run: pattern a over lines a, b, a. -/
theorem C7_count_mode_refines_full_output_witness :
    ({ patterns := ["a"] } : Settings).list_filenames = false ∧
    ({ patterns := ["a"] } : Settings).only_matching = false ∧
    (process_stream { ({ patterns := ["a"] } : Settings) with count_only := true }
        (simpleMatcher { patterns := ["a"] }) ["a", "b", "a"]
      = [Event.countRec (["a", "b", "a"].countP
          (eligB { patterns := ["a"] } (simpleMatcher { patterns := ["a"] })))] ∧
     (process_stream { ({ patterns := ["a"] } : Settings) with count_only := false }
        (simpleMatcher { patterns := ["a"] }) ["a", "b", "a"]).countP Event.isMatchRec
      = ["a", "b", "a"].countP
          (eligB { patterns := ["a"] } (simpleMatcher { patterns := ["a"] }))) :=
  ⟨rfl, rfl, C7_count_mode_refines_full_output { patterns := ["a"] }
    (simpleMatcher { patterns := ["a"] }) ["a", "b", "a"] rfl rfl⟩

/-- C4: with inversion enabled, a count run reports the number of lines
minus the number of literally matching lines; and the matcher itself
never consults the invert flag, so matching applies no inversion. -/
theorem C4_invert_mode_counts_complement (s : Settings) (m : Matcher) (lines : List String)
    (hc : s.count_only = true) (hl : s.list_filenames = false)
    (hv : s.invert_match = true) :
    process_stream s m lines
      = [Event.countRec (lines.length - lines.countP (fun l => (m l).1))] ∧
    (∀ (s2 : Settings) (line : List Char),
      simple_matches { s2 with invert_match := true } line
        = simple_matches { s2 with invert_match := false } line) := by
  constructor
  · obtain ⟨e1, e2, e3, _⟩ := processLinesAux_count s m hc hl lines initState 0 rfl
    unfold process_stream processStreamFull
    simp only [e2, Bool.false_eq_true, if_false, hc, if_true]
    rw [e1, List.nil_append, e3]
    have hfun : eligB s m = fun l => !(m l).1 := by
      funext l
      simp [eligB, hv]
    rw [hfun]
    have hsplit := countP_not_split (fun l => (m l).1) lines
    have : lines.countP (fun l => !(m l).1)
        = lines.length - lines.countP (fun l => (m l).1) := by omega
    rw [show initState.matchCount = 0 from rfl, this, Nat.zero_add]
  · intro s2 line
    rfl

/-- Witness for C4 at a concrete run: pattern a, inverted count over
lines a, b, c reports 2. -/
theorem C4_invert_mode_counts_complement_witness :
    ({ count_only := true, invert_match := true, patterns := ["a"] } : Settings).count_only
        = true ∧
    ({ count_only := true, invert_match := true, patterns := ["a"] } : Settings).list_filenames
        = false ∧
    ({ count_only := true, invert_match := true, patterns := ["a"] } : Settings).invert_match
        = true ∧
    (process_stream { count_only := true, invert_match := true, patterns := ["a"] }
        (simpleMatcher { count_only := true, invert_match := true, patterns := ["a"] })
        ["a", "b", "c"]
      = [Event.countRec (["a", "b", "c"].length - ["a", "b", "c"].countP
          (fun l => (simpleMatcher { count_only := true, invert_match := true, patterns := ["a"] } l).1))] ∧
     (∀ (s2 : Settings) (line : List Char),
        simple_matches { s2 with invert_match := true } line
          = simple_matches { s2 with invert_match := false } line)) :=
  ⟨rfl, rfl, rfl, C4_invert_mode_counts_complement
    { count_only := true, invert_match := true, patterns := ["a"] }
    (simpleMatcher { count_only := true, invert_match := true, patterns := ["a"] })
    ["a", "b", "c"] rfl rfl rfl⟩

/-- C8: in literal fixed-string mode the dot has no special meaning: the
pattern a.b is found literally in xa.by (at offset 1, length 3) and does
not match axbby. -/
theorem C8_literal_mode_dot_not_wildcard :
    occursAt "xa.by".toList "a.b".toList 1 = true ∧
    simple_matches { patterns := ["a.b"] } "xa.by".toList = (true, [(1, 3)]) ∧
    (simple_matches { patterns := ["a.b"] } "axbby".toList).1 = false := by
  refine ⟨by decide, by decide, by decide⟩

theorem simpleGo_all_empty (ic ww om : Bool) (line : List Char) :
    ∀ (ps : List String) (found : Bool) (acc : List (Nat × Nat)),
      (∀ p ∈ ps, p = "") → simpleGo ic ww om line ps found acc = (found, acc) := by
  intro ps
  induction ps with
  | nil => intro found acc _; rfl
  | cons p rest ih =>
    intro found acc h
    have hp : p = "" := h p (List.mem_cons_self _ _)
    subst hp
    have hemp : ("" : String).isEmpty = true := rfl
    simp only [simpleGo, hemp, if_true]
    exact ih found acc (fun q hq => h q (List.mem_cons_of_mem _ hq))

/-- C10: in the simple fixed-string path, empty patterns are skipped, so
a pattern list of only empty strings matches no line and records no
positions. -/
theorem C10_empty_patterns_never_match (s : Settings) (line : List Char)
    (h : ∀ p ∈ s.patterns, p = "") :
    simple_matches s line = (false, []) := by
  unfold simple_matches
  rw [simpleGo_all_empty s.ignore_case s.match_whole_word s.only_matching line
    s.patterns false [] h]
  simp

/-- Witness for C10: two empty patterns on the line abc. -/
theorem C10_empty_patterns_never_match_witness :
    (∀ p ∈ ({ patterns := ["", ""] } : Settings).patterns, p = "") ∧
    simple_matches { patterns := ["", ""] } "abc".toList = (false, []) :=
  ⟨by decide, C10_empty_patterns_never_match { patterns := ["", ""] } "abc".toList (by decide)⟩

/-- C5 (amended): the literal whole-word fast path accepts an occurrence
exactly when is_word_boundary holds at both ends, and is_word_boundary is
the regex backslash-b rule: a boundary holds at a position exactly when
precisely one side of it is an alphanumeric character, where the sides
beyond the string edges count as non-alphanumeric.  In particular, at
the string start a boundary requires the first character of the match to
be alphanumeric (and dually at the end); the spec wording "a boundary
holds at the string start/end" unconditionally is refuted by the
counterexample.  The pattern cat matches the line "the cat sat" and not
"concatenate". -/
theorem C5_whole_word_boundary_rule :
    (∀ (line : List Char) (pos : Nat), line ≠ [] → pos ≤ line.length →
        is_word_boundary line pos
          = ((decide (0 < pos) && isAlnumC (line.getD (pos - 1) ' '))
              != (decide (pos < line.length) && isAlnumC (line.getD pos ' ')))) ∧
    (simple_matches { match_whole_word := true, patterns := ["cat"] } "the cat sat".toList).1
        = true ∧
    (simple_matches { match_whole_word := true, patterns := ["cat"] } "concatenate".toList).1
        = false := by
  refine ⟨?_, by decide, by decide⟩
  intro line pos hne hle
  have hni : line.isEmpty = false := by
    cases line with
    | nil => exact absurd rfl hne
    | cons a t => rfl
  simp only [is_word_boundary, hni, Bool.false_eq_true, if_false]
  by_cases h0 : pos = 0
  · subst h0
    have hl0 : 0 < line.length := List.length_pos.2 hne
    simp [hl0]
  · by_cases hend : pos = line.length
    · have h1 : 0 < pos := Nat.pos_of_ne_zero h0
      have h2 : ¬ pos < line.length := by rw [hend]; exact lt_irrefl _
      simp [h0, hend, h1, h2, hne, List.length_pos.2 hne]
    · have h1 : 0 < pos := Nat.pos_of_ne_zero h0
      have h2 : pos < line.length := lt_of_le_of_ne hle hend
      simp [h0, hend, h1, h2]

/-- Witness for C5 at the concrete boundary position 2 of the line ab
(the string end, previous character alphanumeric). -/
theorem C5_whole_word_boundary_rule_witness :
    ("ab".toList ≠ ([] : List Char)) ∧
    is_word_boundary "ab".toList 2
      = ((decide (0 < 2) && isAlnumC ("ab".toList.getD (2 - 1) ' '))
          != (decide (2 < "ab".toList.length) && isAlnumC ("ab".toList.getD 2 ' '))) :=
  ⟨by decide, C5_whole_word_boundary_rule.1 "ab".toList 2 (by decide) (by decide)⟩

/-- Counterexample to C5 as stated: the pattern consisting of the single
character dash occurs at position 0 of the line -a and the spec boundary
rule (boundary at string start, and transition dash to a at the end)
accepts it, yet the code rejects it: is_word_boundary at position 0
demands an alphanumeric first character, matching regex semantics, so
simple_matches finds nothing. -/
theorem C5_counterexample_spec_boundary_rule :
    occursAt "-a".toList "-".toList 0 = true ∧
    specWordAccept "-a".toList "-".toList 0 = true ∧
    simple_matches { match_whole_word := true, patterns := ["-"] } "-a".toList
      = (false, []) := by
  refine ⟨by decide, by decide, by decide⟩

theorem startsWithBoundary_eq (p : List Char) : startsWithBoundary p = startsProtected p := by
  cases p with
  | nil => rfl
  | cons a q =>
    cases q with
    | nil => simp [startsWithBoundary, startsProtected, List.isPrefixOf]
    | cons b t =>
      simp only [startsWithBoundary, startsProtected, List.isPrefixOf, List.take,
        List.head?, List.headD]
      have hlen : (2 ≤ (a :: b :: t).length) := by simp
      simp [hlen, List.isPrefixOf, Bool.beq_comm]

theorem endsWithBoundary_eq (p : List Char) : endsWithBoundary p = endsProtected p := by
  rcases hr : p.reverse with _ | ⟨x, q⟩
  · have hp : p = [] := List.reverse_eq_nil_iff.1 hr
    subst hp
    rfl
  · rcases q with _ | ⟨y, t⟩
    · have hp : p = [x] := by
        rw [← List.reverse_reverse p, hr]
        rfl
      subst hp
      simp [endsWithBoundary, endsProtected, List.isSuffixOf, List.isPrefixOf]
    · have hp : p = t.reverse ++ [y, x] := by
        rw [← List.reverse_reverse p, hr]
        simp
      subst hp
      have hlen : (t.reverse ++ [y, x]).length = t.length + 2 := by simp
      have hdrop : (t.reverse ++ [y, x]).drop ((t.reverse ++ [y, x]).length - 2) = [y, x] := by
        rw [hlen]
        have h1 : t.length + 2 - 2 = t.reverse.length := by simp
        rw [h1, List.drop_left]
      have hlast : (t.reverse ++ [y, x]).getLastD ' ' = x := by
        have : t.reverse ++ [y, x] = (t.reverse ++ [y]) ++ [x] := by simp
        rw [this, List.getLastD_concat]
      have hlast2 : (t.reverse ++ [y, x]).getLast? = some x := by
        have : t.reverse ++ [y, x] = (t.reverse ++ [y]) ++ [x] := by simp
        rw [this, List.getLast?_concat]
      have hsuf : List.isSuffixOf ['\\', 'b'] (t.reverse ++ [y, x])
          = (('b' == x) && ('\\' == y)) := by
        show (['\\', 'b'].reverse).isPrefixOf ((t.reverse ++ [y, x]).reverse) = _
        have : (t.reverse ++ [y, x]).reverse = x :: y :: t := by simp
        rw [this]
        simp [List.isPrefixOf]
      have h2n : 2 ≤ (t.reverse ++ [y, x]).length := by simp
      have h1n : 1 ≤ (t.reverse ++ [y, x]).length := by simp
      unfold endsWithBoundary endsProtected
      rw [hdrop, hlast, hlast2, hsuf]
      simp [h2n, h1n, Bool.beq_comm, Bool.and_comm]

/-- C6 (amended): in compile_patterns of src/scanr.cpp, whole-word
wrapping is applied to the start of a pattern unless the pattern already
begins with a backslash-b escape or a caret, and to the end unless it
already ends with a backslash-b escape or a dollar; contrary to the
claim, a dollar at the start (or a caret at the end) does not suppress
the wrapping of that end, and compile_regex of src/main.cpp wraps both
ends unconditionally, even when the pattern already carries boundary
markers. -/
theorem C6_whole_word_wrapping_per_end (p : List Char) :
    wrapWholeWord p
      = (if startsProtected p then [] else ['\\', 'b']) ++ p ++
          (if endsProtected p then [] else ['\\', 'b']) ∧
    compile_regex true false p = ['\\', 'b'] ++ p ++ ['\\', 'b'] := by
  constructor
  · unfold wrapWholeWord
    rw [startsWithBoundary_eq, endsWithBoundary_eq]
    by_cases hs : startsProtected p = true <;> by_cases he : endsProtected p = true <;>
      simp [hs, he]
  · unfold compile_regex
    simp

/-- Counterexample to C6 as stated: the pattern dollar-x begins with an
anchor, yet compile_patterns wraps its start anyway, and compile_regex of
src/main.cpp double-wraps a pattern that already carries backslash-b at
both ends. -/
theorem C6_counterexample_anchor_not_respected :
    "$x".toList.head? = some '$' ∧
    compile_patterns { match_whole_word := true, patterns := ["$x"] } = ["\\b$x\\b".toList] ∧
    compile_regex true false "\\bcat\\b".toList = "\\b\\bcat\\b\\b".toList := by
  refine ⟨by decide, by decide, by decide⟩

/-- C3 (amended): the concurrent driver of src/main.cpp exits with
success exactly when compilation succeeded and at least one
output-eligible line (match XOR invert) occurred across the queue; a file
that fails to open contributes nothing to the total, so it never by
itself forces a non-success exit.  The single-threaded driver of
src/scanr.cpp, however, returns 0 on every run that parses and compiles,
regardless of whether any eligible line occurred (see the
counterexample). -/
theorem C3_exit_status_matches_totals :
    (∀ (compiles : Bool) (m : String → Bool) (invert : Bool) (queue : List FileEntry),
        ((concurrent_main compiles m invert queue).1 = 0
          ↔ (compiles = true ∧ 0 < totalMatchesC m invert queue))) ∧
    (∀ (m : String → Bool) (invert : Bool) (f : FileEntry) (files : List FileEntry),
        f.contents = none →
        totalMatchesC m invert (f :: files) = totalMatchesC m invert files) ∧
    (∀ (s : Settings) (m : Matcher) (stdinLines : List String) (files : List FileEntry),
        s.patterns ≠ [] → (scanr_main s m true stdinLines files).exitCode = 0) := by
  refine ⟨?_, ?_, ?_⟩
  · intro compiles m invert queue
    cases compiles with
    | false => simp [concurrent_main]
    | true =>
      by_cases hq : queue.isEmpty = true
      · have hq' : queue = [] := List.isEmpty_iff.1 hq
        subst hq'
        simp [concurrent_main, totalMatchesC]
      · by_cases ht : 0 < totalMatchesC m invert queue <;>
          simp [concurrent_main, hq, ht]
  · intro m invert f files h
    simp [totalMatchesC, process_file_matches, h]
  · intro s m stdinLines files hpat
    have hp : s.patterns.isEmpty = false := by
      cases hps : s.patterns with
      | nil => exact absurd hps hpat
      | cons a l => rfl
    unfold scanr_main
    rw [hp]
    simp only [Bool.false_eq_true, if_false, Bool.not_true, Bool.and_false]
    by_cases hf : files.isEmpty = true <;> simp [hf]

/-- Witness for C3 at concrete runs: an unopenable file adds nothing to
the total, and a compiled scanr run exits 0. -/
theorem C3_exit_status_matches_totals_witness :
    (({ name := "g", contents := none } : FileEntry).contents = none) ∧
    totalMatchesC (fun _ => true) false [{ name := "g", contents := none }]
      = totalMatchesC (fun _ => true) false [] ∧
    (({ patterns := ["a"] } : Settings).patterns ≠ []) ∧
    (scanr_main { patterns := ["a"] } (fun _ => (true, [])) true [] []).exitCode = 0 :=
  ⟨rfl,
   C3_exit_status_matches_totals.2.1 (fun _ => true) false { name := "g", contents := none }
     [] rfl,
   by decide,
   C3_exit_status_matches_totals.2.2 { patterns := ["a"] } (fun _ => (true, [])) [] []
     (by decide)⟩

/-- Counterexample to C3 as stated: a src/scanr.cpp run over one file
whose single line is not eligible (no match, no inversion) exits with 0,
success, although no output-eligible line occurred anywhere. -/
theorem C3_counterexample_scanr_exit_zero :
    (scanr_main { patterns := ["a"] } (simpleMatcher { patterns := ["a"] }) true []
        [{ name := "f", contents := some ["b"] }]).exitCode = 0 ∧
    totalMatchesC (fun l => (simple_matches { patterns := ["a"] } l.toList).1) false
        [{ name := "f", contents := some ["b"] }] = 0 := by
  refine ⟨by decide, by decide⟩

theorem countP_out_compile (l : List Event) :
    (l.map RunEv.out).countP RunEv.isCompileCall = 0 := by
  rw [List.countP_map]
  exact List.countP_eq_zero.2 (fun e _ => by simp [Function.comp, RunEv.isCompileCall])

theorem streamSkipped_not_mem_stream_trace (s : Settings) (m : Matcher) (compiles : Bool)
    (name : String) (lines : List String) (h : s.use_extended_regex = true → compiles = true)
    (nm : String) : RunEv.streamSkipped nm ∉ stream_trace s m compiles name lines := by
  unfold stream_trace
  by_cases hreg : s.use_extended_regex = true
  · rw [if_pos hreg, if_pos (h hreg)]
    intro hmem
    rcases List.mem_cons.1 hmem with h1 | h2
    · exact RunEv.noConfusion h1
    · rcases List.mem_map.1 h2 with ⟨e, _, he⟩
      exact RunEv.noConfusion he
  · rw [if_neg hreg]
    intro hmem
    rcases List.mem_map.1 hmem with ⟨e, _, he⟩
    exact RunEv.noConfusion he

theorem countP_scanr_files (s : Settings) (m : Matcher)
    (hreg : s.use_extended_regex = true) :
    ∀ files : List FileEntry,
      ((files.map (fun f => match f.contents with
          | none => [RunEv.openFailed f.name]
          | some ls => stream_trace s m true f.name ls)).flatten).countP RunEv.isCompileCall
        = files.countP (fun f => f.contents.isSome) := by
  intro files
  induction files with
  | nil => rfl
  | cons f rest ih =>
    simp only [List.map_cons, List.flatten_cons, List.countP_append, ih, List.countP_cons]
    cases hfc : f.contents with
    | none =>
      simp [hfc, RunEv.isCompileCall]
    | some ls =>
      simp [stream_trace, hreg, countP_out_compile, List.countP_cons, RunEv.isCompileCall]
      have h0 : List.countP (RunEv.isCompileCall ∘ RunEv.out) (process_stream s m ls) = 0 :=
        List.countP_eq_zero.2 (fun e _ => by simp [Function.comp, RunEv.isCompileCall])
      omega

/-- C9 (amended): in the concurrent driver of src/main.cpp, pattern
compilation runs exactly once, before any file event, and a failure exits
the run before any file is opened; in the src/scanr.cpp driver an initial
compilation failure likewise aborts before any file is opened, and since
compilation of fixed settings is deterministic a pattern failure never
surfaces as a per-stream skip; but contrary to the claim, compilation
does not happen exactly once per run in src/scanr.cpp: each stream
processed in regex mode re-compiles the patterns, so a run over k
readable files performs 1 plus k compilations (see the counterexample). -/
theorem C9_compilation_fail_fast :
    (∀ (compiles : Bool) (m : String → Bool) (invert : Bool) (queue : List FileEntry),
        (concurrent_main compiles m invert queue).2.countP RunEv.isCompileCall = 1 ∧
        (concurrent_main compiles m invert queue).2.head? = some RunEv.compileCall) ∧
    (∀ (m : String → Bool) (invert : Bool) (queue : List FileEntry),
        concurrent_main false m invert queue = (1, [RunEv.compileCall])) ∧
    (∀ (s : Settings) (m : Matcher) (stdinLines : List String) (files : List FileEntry),
        s.patterns ≠ [] → (norm_settings s).use_extended_regex = true →
        scanr_main s m false stdinLines files
          = { exitCode := 1, trace := [RunEv.compileCall] }) ∧
    (∀ (s : Settings) (m : Matcher) (compiles : Bool) (stdinLines : List String)
        (files : List FileEntry) (name : String),
        RunEv.streamSkipped name ∉ (scanr_main s m compiles stdinLines files).trace) ∧
    (∀ (s : Settings) (m : Matcher) (stdinLines : List String) (files : List FileEntry),
        s.patterns ≠ [] → (norm_settings s).use_extended_regex = true →
        (scanr_main s m true stdinLines files).trace.countP RunEv.isCompileCall
          = 1 + (if files.isEmpty then 1
                 else files.countP (fun f => f.contents.isSome))) := by
  refine ⟨?_, ?_, ?_, ?_, ?_⟩
  · intro compiles m invert queue
    cases compiles with
    | false => exact ⟨rfl, rfl⟩
    | true =>
      by_cases hq : queue.isEmpty = true
      · simp [concurrent_main, hq, RunEv.isCompileCall]
      · constructor
        · simp only [concurrent_main, Bool.not_true, Bool.false_eq_true, if_false, hq]
          rw [List.countP_cons]
          have h0 : (queue.map (fun f => match f.contents with
              | none => RunEv.openFailed f.name
              | some _ => RunEv.fileProcessed f.name)).countP RunEv.isCompileCall = 0 := by
            rw [List.countP_map]
            refine List.countP_eq_zero.2 (fun f _ => ?_)
            cases hfc : f.contents <;> simp [Function.comp, hfc, RunEv.isCompileCall]
          rw [h0]
          simp [RunEv.isCompileCall]
        · simp [concurrent_main, hq]
  · intro m invert queue
    rfl
  · intro s m stdinLines files hpat hreg
    have hp : s.patterns.isEmpty = false := by
      cases hps : s.patterns with
      | nil => exact absurd hps hpat
      | cons a l => rfl
    unfold scanr_main
    rw [hp]
    simp [hreg]
  · intro s m compiles stdinLines files name
    unfold scanr_main
    by_cases hp : s.patterns.isEmpty = true
    · simp [hp]
    · rw [eq_false_of_ne_true hp]
      simp only [Bool.false_eq_true, if_false]
      by_cases habort : ((norm_settings s).use_extended_regex && !compiles) = true
      · simp [habort]
      · have hcomp : (norm_settings s).use_extended_regex = true → compiles = true := by
          intro h1
          rcases Bool.and_eq_false_iff.1 (eq_false_of_ne_true habort) with h2 | h2
          · exact absurd h1 (by simp [h2])
          · simpa using h2
        rw [if_neg (by simp [habort] : ¬ ((norm_settings s).use_extended_regex
              && !compiles) = true)]
        by_cases hf : files.isEmpty = true
        · simp only [hf, if_true]
          intro hmem
          rcases List.mem_append.1 hmem with h1 | h1
          · rcases Bool.eq_false_or_eq_true (norm_settings s).use_extended_regex with h2 | h2 <;>
              simp [h2] at h1
          · exact streamSkipped_not_mem_stream_trace (norm_settings s) m compiles
              "(standard input)" stdinLines hcomp name h1
        · simp only [eq_false_of_ne_true hf, Bool.false_eq_true, if_false]
          intro hmem
          rcases List.mem_append.1 hmem with h1 | h1
          · rcases Bool.eq_false_or_eq_true (norm_settings s).use_extended_regex with h2 | h2 <;>
              simp [h2] at h1
          · rcases List.mem_flatten.1 h1 with ⟨l, hl, hmem2⟩
            rcases List.mem_map.1 hl with ⟨f, _, rfl⟩
            cases hfc : f.contents with
            | none => simp [hfc] at hmem2
            | some ls =>
              rw [hfc] at hmem2
              exact streamSkipped_not_mem_stream_trace (norm_settings s) m compiles
                f.name ls hcomp name hmem2
  · intro s m stdinLines files hpat hreg
    have hp : s.patterns.isEmpty = false := by
      cases hps : s.patterns with
      | nil => exact absurd hps hpat
      | cons a l => rfl
    unfold scanr_main
    rw [hp]
    simp only [Bool.false_eq_true, if_false, Bool.not_true, Bool.and_false, hreg, if_true]
    by_cases hf : files.isEmpty = true
    · simp only [hf, if_true]
      rw [List.countP_append]
      have h1 : stream_trace (norm_settings s) m true "(standard input)" stdinLines
          = RunEv.compileCall :: (process_stream (norm_settings s) m stdinLines).map
              RunEv.out := by
        unfold stream_trace
        rw [if_pos hreg, if_pos rfl]
      rw [h1]
      simp [List.countP_cons, countP_out_compile, RunEv.isCompileCall]
      have h0 : List.countP (RunEv.isCompileCall ∘ RunEv.out)
          (process_stream (norm_settings s) m stdinLines) = 0 :=
        List.countP_eq_zero.2 (fun e _ => by simp [Function.comp, RunEv.isCompileCall])
      omega
    · simp only [eq_false_of_ne_true hf, Bool.false_eq_true, if_false]
      rw [List.countP_append, countP_scanr_files (norm_settings s) m hreg files]
      simp [RunEv.isCompileCall]

/-- Witness for C9 at concrete runs. -/
theorem C9_compilation_fail_fast_witness :
    ((concurrent_main true (fun _ => true) false []).2.countP RunEv.isCompileCall = 1 ∧
     (concurrent_main true (fun _ => true) false []).2.head? = some RunEv.compileCall) ∧
    concurrent_main false (fun _ => true) false [] = (1, [RunEv.compileCall]) ∧
    (({ use_extended_regex := true, patterns := ["a"] } : Settings).patterns ≠ []) ∧
    ((norm_settings { use_extended_regex := true, patterns := ["a"] }).use_extended_regex
        = true) ∧
    scanr_main { use_extended_regex := true, patterns := ["a"] } (fun _ => (true, [])) false [] []
      = { exitCode := 1, trace := [RunEv.compileCall] } ∧
    RunEv.streamSkipped "f" ∉
      (scanr_main { patterns := ["a"] } (fun _ => (true, [])) true [] []).trace ∧
    (scanr_main { use_extended_regex := true, patterns := ["a"] } (fun _ => (true, []))
        true [] []).trace.countP RunEv.isCompileCall
      = 1 + (if ([] : List FileEntry).isEmpty then 1
             else ([] : List FileEntry).countP (fun f => f.contents.isSome)) :=
  ⟨C9_compilation_fail_fast.1 true (fun _ => true) false [],
   C9_compilation_fail_fast.2.1 (fun _ => true) false [],
   by decide,
   by decide,
   C9_compilation_fail_fast.2.2.1 { use_extended_regex := true, patterns := ["a"] }
     (fun _ => (true, [])) [] [] (by decide) (by decide),
   C9_compilation_fail_fast.2.2.2.1 { patterns := ["a"] } (fun _ => (true, [])) true [] [] "f",
   C9_compilation_fail_fast.2.2.2.2 { use_extended_regex := true, patterns := ["a"] }
     (fun _ => (true, [])) [] [] (by decide) (by decide)⟩

/-- Counterexample to C9 as stated: a src/scanr.cpp regex-mode run over
two readable files calls compile_patterns three times (once in main, once
per stream), not exactly once per run. -/
theorem C9_counterexample_recompiles_per_stream :
    ((scanr_main { use_extended_regex := true, patterns := ["a"] } (fun _ => (true, [])) true []
        [{ name := "f1", contents := some ["x"] },
         { name := "f2", contents := some ["y"] }]).trace.countP RunEv.isCompileCall = 3) ∧
    ((scanr_main { use_extended_regex := true, patterns := ["a"] } (fun _ => (true, [])) true []
        [{ name := "f1", contents := some ["x"] },
         { name := "f2", contents := some ["y"] }]).trace.countP RunEv.isCompileCall ≠ 1) := by
  refine ⟨by decide, by decide⟩
